import Mathlib

namespace Banktivity

/-!
Shallow embedding of the ledger store and of the engine's mutating
operations (`src/packages/sdk/src/repositories/*.ts`, `src/src/database.ts`,
and the thin MCP tool wrappers in `src/packages/mcp/src/tools/*.ts` /
`src/src/tools/*.ts`).

Each SQLite table of the Banktivity `core.sql` store is a list of row
records; `Z_PK` auto-increment primary keys are modelled by per-table
`next...Id` counters (SQLite assigns `max+1`, and fresh ids never collide
with live rows, which the well-formedness invariant tracks).  Columns not
read or written by any operation under verification (creation/modification
timestamps, `Z_OPT` version counters, UUID strings, exchange rates) are
omitted; they influence no claim.  Amounts are modelled as integers: every
operation only adds and compares them.
-/

-- ===== date codec (utils/date.ts) =====

/-- The fixed offset between the Core Data epoch (2001-01-01) and the Unix
epoch, in seconds: `CORE_DATA_EPOCH_OFFSET` in `utils/date.ts`. -/
def coreDataEpochOffset : Int := 978307200

/-- Gregorian leap-year test, as used by the JavaScript `Date` object. -/
def isLeap (y : Int) : Bool := (y % 4 == 0 && y % 100 != 0) || (y % 400 == 0)

/-- Number of days in month `m` of year `y`. -/
def daysInMonth (y m : Int) : Int :=
  if m = 2 then (if isLeap y then 29 else 28)
  else if m = 4 ∨ m = 6 ∨ m = 9 ∨ m = 11 then 30
  else 31

/-- The year/month/day triples that come from a well-formed `YYYY-MM-DD`
calendar date string (four-digit year, real Gregorian month and day). -/
def ValidDate (y m d : Int) : Prop :=
  0 ≤ y ∧ y ≤ 9999 ∧ 1 ≤ m ∧ m ≤ 12 ∧ 1 ≤ d ∧ d ≤ daysInMonth y m

instance (y m d : Int) : Decidable (ValidDate y m d) := by
  unfold ValidDate; exact inferInstance

/-- Year shifted so that it starts on March 1 (February is its last month). -/
def shiftedYear (y m : Int) : Int := if m ≤ 2 then y - 1 else y

/-- Month index in the shifted year: March = 0, ..., February = 11. -/
def monthIdx (m : Int) : Int := (m + 9) % 12

/-- Day index of a civil day within its shifted year (0-based). -/
def dayOfShiftedYear (m d : Int) : Int := (153 * monthIdx m + 2) / 5 + d - 1

/-- Day index within a 400-year era given a year-of-era and a
day-of-shifted-year (0-based, 0 ≤ result ≤ 146096). -/
def dayOfEra (yoe doy : Int) : Int := yoe * 365 + yoe / 4 - yoe / 100 + doy

/-- Days since the Unix epoch (1970-01-01) of a civil date; models
`Date.UTC`/`getTime` semantics of the JavaScript engine on the proleptic
Gregorian calendar.  `Int` division/`%` by positive constants is floor
division, matching the algorithm's intent. -/
def daysFromCivil (y m d : Int) : Int :=
  shiftedYear y m / 400 * 146097
    + dayOfEra (shiftedYear y m % 400) (dayOfShiftedYear m d) - 719468

/-- Recover the year-of-era from a day-of-era. -/
def yoeFromDoe (doe : Int) : Int :=
  (doe - doe / 1460 + doe / 36524 - doe / 146096) / 365

/-- Recover the calendar month from a shifted-year month index. -/
def monthFromIdx (mp : Int) : Int := mp + (if mp < 10 then 3 else -9)

/-- Civil date of a day count since the Unix epoch; models what
`toISOString` prints for the UTC date components. -/
def civilFromDays (z0 : Int) : Int × Int × Int :=
  let z := z0 + 719468
  let era := z / 146097
  let doe := z % 146097
  let yoe := yoeFromDoe doe
  let doy := doe - dayOfEra yoe 0
  let mp := (5 * doy + 2) / 153
  let d := doy - (153 * mp + 2) / 5 + 1
  let m := monthFromIdx mp
  (if m ≤ 2 then yoe + era * 400 + 1 else yoe + era * 400, m, d)

/-- `isoToCoreData` in `utils/date.ts`: `Math.floor(new Date(iso).getTime()
/ 1000) - CORE_DATA_EPOCH_OFFSET`, on the parsed components of the date
string. -/
def isoToCoreData (y m d : Int) : Int :=
  daysFromCivil y m d * 86400 - coreDataEpochOffset

/-- `coreDataToISO` in `utils/date.ts`: `new Date((t + offset) *
1000).toISOString().split("T")[0]`, returned as date components. -/
def coreDataToISO (t : Int) : Int × Int × Int :=
  civilFromDays ((t + coreDataEpochOffset) / 86400)

-- ===== store and operations =====

/-- A `ZACCOUNT` row. -/
structure AccountRow where
  id : Nat
  name : String
  accountClass : Int
deriving Repr, DecidableEq

/-- A `ZTRANSACTION` row. -/
structure TransactionRow where
  id : Nat
  date : Int
  title : String
  note : Option String
  cleared : Bool
  voided : Bool
deriving Repr, DecidableEq

/-- A `ZLINEITEM` row. -/
structure LineItemRow where
  id : Nat
  accountId : Nat
  txId : Nat
  amount : Int
  memo : Option String
  runningBalance : Int
  cleared : Bool
deriving Repr, DecidableEq

/-- A `ZTAG` row. -/
structure TagRow where
  id : Nat
  name : String
  canonicalName : String
deriving Repr, DecidableEq

/-- A `ZTRANSACTIONTEMPLATE` row. -/
structure TemplateRow where
  id : Nat
  title : String
  amount : Int
deriving Repr, DecidableEq

/-- A `ZLINEITEMTEMPLATE` row. -/
structure LineItemTemplateRow where
  id : Nat
  templateId : Nat
  accountId : String
  amount : Int
deriving Repr, DecidableEq

/-- A `ZTEMPLATESELECTOR` row; `ent` is the `Z_ENT` discriminator
(49 = import rule, 52 = scheduled transaction). -/
structure SelectorRow where
  id : Nat
  ent : Nat
  templateId : Nat
  pattern : Option String
  accountId : Option String
  payee : Option String
  recurringId : Option Nat
  startDate : Option Int
  nextDate : Option Int
  repeatInterval : Option Int
  repeatMultiplier : Option Int
  reminderDays : Option Int
deriving Repr, DecidableEq

/-- A `ZRECURRINGTRANSACTION` row. -/
structure RecurringRow where
  id : Nat
  reminderDays : Int
  firstUnprocessedEventDate : Int
deriving Repr, DecidableEq

/-- The whole store. -/
structure DB where
  accounts : List AccountRow
  transactions : List TransactionRow
  lineItems : List LineItemRow
  tags : List TagRow
  tagAssocs : List (Nat × Nat)
  templates : List TemplateRow
  lineItemTemplates : List LineItemTemplateRow
  selectors : List SelectorRow
  recurrings : List RecurringRow
  nextTxId : Nat
  nextLineItemId : Nat
  nextTagId : Nat
  nextSelectorId : Nat
  nextRecurringId : Nat
deriving Repr, DecidableEq

/-- A store with no rows. -/
def emptyDB : DB :=
  ⟨[], [], [], [], [], [], [], [], [], 1, 1, 1, 1, 1⟩

/-- First-occurrence deduplication; models both JavaScript `Set` insertion
order and SQL `SELECT DISTINCT`. -/
def distinctKeep : List Nat → List Nat
  | [] => []
  | x :: xs => x :: (distinctKeep xs).filter (fun y => y ≠ x)

/-- Insertion step of an insertion sort by a boolean `le`. -/
def insertLe (le : α → α → Bool) (x : α) : List α → List α
  | [] => [x]
  | y :: ys => if le x y then x :: y :: ys else y :: insertLe le x ys

/-- Insertion sort by a boolean `le`; models SQL `ORDER BY`. -/
def sortLe (le : α → α → Bool) (l : List α) : List α :=
  l.foldr (insertLe le) []

/-- The lexicographic `(transaction date, line-item id)` ordering key used
by `ORDER BY t.ZPDATE ASC, li.Z_PK ASC`. -/
def keyLE (d₁ : Int) (i₁ : Nat) (d₂ : Int) (i₂ : Nat) : Bool :=
  decide (d₁ < d₂) || (decide (d₁ = d₂) && decide (i₁ ≤ i₂))

/-- One row of the recalculation query: `SELECT li.Z_PK, li.ZPTRANSACTIONAMOUNT,
t.ZPDATE FROM ZLINEITEM li JOIN ZTRANSACTION t ...`. -/
structure Entry where
  id : Nat
  amount : Int
  date : Int
deriving Repr, DecidableEq

/-- Ordering of query rows under `ORDER BY t.ZPDATE ASC, li.Z_PK ASC`. -/
def entryLE (x y : Entry) : Bool := keyLE x.date x.id y.date y.id

/-- Date of the transaction owning a line item (`JOIN ZTRANSACTION`): `none`
when the referenced transaction row does not exist. -/
def txDate (db : DB) (txId : Nat) : Option Int :=
  (db.transactions.find? (fun t => t.id == txId)).map (fun t => t.date)

/-- The recalculation query row produced by one line item of account `a`,
if any: the `JOIN` drops line items whose transaction row is missing. -/
def entryOf (db : DB) (a : Nat) (li : LineItemRow) : Option Entry :=
  if li.accountId == a then
    (txDate db li.txId).map (fun dt => ⟨li.id, li.amount, dt⟩)
  else none

/-- All recalculation query rows of account `a` (unsorted). -/
def selectAccountEntries (db : DB) (a : Nat) : List Entry :=
  db.lineItems.filterMap (entryOf db a)

/-- The running-balance write set: walking the ordered rows accumulating a
running sum, pairing each line-item id with its new running balance. -/
def assignBalances (acc : Int) : List Entry → List (Nat × Int)
  | [] => []
  | e :: es => (e.id, acc + e.amount) :: assignBalances (acc + e.amount) es

/-- `LineItemRepository.recalculateRunningBalances` /
`BanktivityDatabase.recalculateRunningBalances`: load the account's line
items ordered by `(transaction date, line-item id)`, accumulate a running
sum, and write each cumulative sum back by line-item id
(`UPDATE ZLINEITEM SET ZPRUNNINGBALANCE = ? WHERE Z_PK = ?`). -/
def recalculateRunningBalances (db : DB) (a : Nat) : DB :=
  let updates := assignBalances 0 (sortLe entryLE (selectAccountEntries db a))
  { db with lineItems := db.lineItems.map (fun li =>
      match updates.lookup li.id with
      | some rb => { li with runningBalance := rb }
      | none => li) }

/-- `AccountRepository.getBalance`: `SELECT COALESCE(SUM(ZPTRANSACTIONAMOUNT), 0)
FROM ZLINEITEM WHERE ZPACCOUNT = ?` (no transaction join). -/
def getAccountBalance (db : DB) (a : Nat) : Int :=
  ((db.lineItems.filter (fun li => li.accountId == a)).map (fun li => li.amount)).sum

/-- `LineItemRepository.getAccountIdsForTransaction`:
`SELECT DISTINCT ZPACCOUNT FROM ZLINEITEM WHERE ZPTRANSACTION = ?`. -/
def accountIdsForTx (db : DB) (txId : Nat) : List Nat :=
  distinctKeep (db.lineItems.filterMap (fun li =>
    if li.txId == txId then some li.accountId else none))

/-- Input for one line item of a transaction-create call. -/
structure LineItemInput where
  accountId : Nat
  amount : Int
  memo : Option String
deriving Repr, DecidableEq

/-- Input of `TransactionRepository.create`. -/
structure CreateTxInput where
  title : String
  date : Int
  note : Option String
  lineItems : List LineItemInput
deriving Repr, DecidableEq

/-- The distinct accounts touched by a create call (`affectedAccounts`,
a JavaScript `Set` in insertion order). -/
def touchedAccounts (inp : CreateTxInput) : List Nat :=
  distinctKeep (inp.lineItems.map (fun it => it.accountId))

/-- `LineItemRepository.create`: insert one `ZLINEITEM` row with running
balance 0, returning its id. -/
def lineItemInsert (db : DB) (txId accountId : Nat) (amount : Int)
    (memo : Option String) : Nat × DB :=
  (db.nextLineItemId,
   { db with
      lineItems := db.lineItems ++
        [⟨db.nextLineItemId, accountId, txId, amount, memo, 0, false⟩],
      nextLineItemId := db.nextLineItemId + 1 })

/-- Body of the atomic unit of `TransactionRepository.create` (steps 2-3):
insert the `ZTRANSACTION` row, then each `ZLINEITEM` row. -/
def insertTxRows (db : DB) (inp : CreateTxInput) : DB :=
  let txId := db.nextTxId
  let db1 := { db with
    transactions := db.transactions ++
      [⟨txId, inp.date, inp.title, inp.note, false, false⟩],
    nextTxId := txId + 1 }
  inp.lineItems.foldl
    (fun dbAcc it => (lineItemInsert dbAcc txId it.accountId it.amount it.memo).2)
    db1

/-- One atomic unit (one `better-sqlite3` transaction, or one implicit
single-statement transaction): it either commits, or fails and is rolled
back wholly. -/
def runUnits : List (DB → Option DB) → DB → DB
  | [], db => db
  | u :: us, db =>
    match u db with
    | some db' => runUnits us db'
    | none => db

/-- The sequence of atomic units executed by `TransactionRepository.create`:
first the `db.transaction(...)` wrapping steps 2-3, then one recalculation
per touched account, each inside its own `db.transaction(...)`.  `insOk`
is the store-acceptance oracle for a line-item insert (a `false` models an
integrity failure raised by the underlying store, which aborts and rolls
back the enclosing unit). -/
def createTransactionUnits (insOk : LineItemInput → Bool)
    (inp : CreateTxInput) : List (DB → Option DB) :=
  (fun db => if inp.lineItems.all insOk then some (insertTxRows db inp) else none)
    :: (touchedAccounts inp).map
        (fun a => fun db => some (recalculateRunningBalances db a))

/-- `TransactionRepository.create` / `BanktivityDatabase.createTransaction`. -/
def createTransaction (insOk : LineItemInput → Bool) (inp : CreateTxInput)
    (db : DB) : DB :=
  runUnits (createTransactionUnits insOk inp) db

/-- The optional fields of `TransactionRepository.update`. -/
structure TxUpdates where
  title : Option String := none
  date : Option Int := none
  note : Option String := none
  cleared : Option Bool := none
deriving Repr, DecidableEq

/-- Whether an update payload carries no field (`buildUpdateClauses`
returns `null`, and the repository reports zero changes). -/
def TxUpdates.isEmpty (u : TxUpdates) : Bool :=
  u.title.isNone && u.date.isNone && u.note.isNone && u.cleared.isNone

/-- Apply the present fields to a transaction row. -/
def applyTxUpdates (u : TxUpdates) (t : TransactionRow) : TransactionRow :=
  { t with
    title := u.title.getD t.title,
    date := u.date.getD t.date,
    note := (match u.note with | some n => some n | none => t.note),
    cleared := u.cleared.getD t.cleared }

/-- The store after the `UPDATE ZTRANSACTION ... WHERE Z_PK = ?` statement. -/
def txMapped (db : DB) (id : Nat) (u : TxUpdates) : DB :=
  { db with transactions :=
      db.transactions.map (fun t => if t.id == id then applyTxUpdates u t else t) }

/-- `TransactionRepository.update`: dynamic partial `UPDATE` by id; zero
changes (no fields, or no such row) reports `false`; a date change
recalculates every account referenced by the transaction's line items. -/
def updateTransaction (db : DB) (id : Nat) (u : TxUpdates) : DB × Bool :=
  if u.isEmpty then (db, false)
  else if db.transactions.any (fun t => t.id == id) then
    if u.date.isSome then
      ((accountIdsForTx (txMapped db id u) id).foldl
        recalculateRunningBalances (txMapped db id u), true)
    else (txMapped db id u, true)
  else (db, false)

/-- The store after the three `DELETE` statements of the delete-transaction
atomic unit: tag associations of the transaction's line items, the line
items, and the transaction row. -/
def txRemoved (db : DB) (id : Nat) : DB :=
  { db with
    tagAssocs := db.tagAssocs.filter (fun p =>
      !((db.lineItems.filterMap
          (fun li => if li.txId == id then some li.id else none)).contains p.1)),
    lineItems := db.lineItems.filter (fun li => !(li.txId == id)),
    transactions := db.transactions.filter (fun t => !(t.id == id)) }

/-- `TransactionRepository.delete`: capture the affected accounts, delete
tag associations, line items and the transaction row in one atomic unit,
recalculate each captured account, and return `true` unconditionally. -/
def deleteTransaction (db : DB) (id : Nat) : DB × Bool :=
  ((accountIdsForTx db id).foldl recalculateRunningBalances (txRemoved db id),
   true)

/-- `BanktivityDatabase.addLineItemToTransaction`: insert the line item,
then recalculate its account. -/
def addLineItemToTransaction (db : DB) (txId accountId : Nat) (amount : Int)
    (memo : Option String) : DB :=
  recalculateRunningBalances
    (lineItemInsert db txId accountId amount memo).2 accountId

/-- The `add_line_item` MCP tool (`tools/line-items.ts`): it refuses a
transaction id that does not exist before delegating to
`addLineItemToTransaction`. -/
def addLineItemTool (db : DB) (txId accountId : Nat) (amount : Int)
    (memo : Option String) : DB :=
  if db.transactions.any (fun t => t.id == txId) then
    addLineItemToTransaction db txId accountId amount memo
  else db

/-- The optional fields of `LineItemRepository.update`. -/
structure LineItemUpdates where
  accountId : Option Nat := none
  amount : Option Int := none
  memo : Option String := none
deriving Repr, DecidableEq

/-- Whether a line-item update payload carries no field. -/
def LineItemUpdates.isEmpty (u : LineItemUpdates) : Bool :=
  u.accountId.isNone && u.amount.isNone && u.memo.isNone

/-- Apply the present fields to a line-item row (running balance and
cleared flag are not updatable through this path). -/
def applyLineItemUpdates (u : LineItemUpdates) (li : LineItemRow) : LineItemRow :=
  { li with
    accountId := u.accountId.getD li.accountId,
    amount := u.amount.getD li.amount,
    memo := (match u.memo with | some mm => some mm | none => li.memo) }

/-- The store after the `UPDATE ZLINEITEM ... WHERE Z_PK = ?` statement. -/
def liMapped (db : DB) (id : Nat) (u : LineItemUpdates) : DB :=
  { db with lineItems :=
      db.lineItems.map (fun li => if li.id == id then applyLineItemUpdates u li else li) }

/-- The affected-accounts set of a line-item update: the old account, plus
the new one on reassignment (a JavaScript `Set` in insertion order). -/
def liUpdateAccounts (cur : LineItemRow) (u : LineItemUpdates) : List Nat :=
  distinctKeep (cur.accountId ::
    (match u.accountId with | some a => [a] | none => []))

/-- `BanktivityDatabase.updateLineItem` over `LineItemRepository.update`:
not-found or empty updates report `false`; otherwise the row is updated and
the old account — plus the new account on reassignment — is recalculated. -/
def updateLineItem (db : DB) (id : Nat) (u : LineItemUpdates) : DB × Bool :=
  match db.lineItems.find? (fun li => li.id == id) with
  | none => (db, false)
  | some cur =>
    if u.isEmpty then (db, false)
    else
      ((liUpdateAccounts cur u).foldl recalculateRunningBalances
        (liMapped db id u), true)

/-- The store after the two `DELETE` statements of the delete-line-item
atomic unit. -/
def liRemoved (db : DB) (id : Nat) : DB :=
  { db with
    tagAssocs := db.tagAssocs.filter (fun p => !(p.1 == id)),
    lineItems := db.lineItems.filter (fun li => !(li.id == id)) }

/-- `BanktivityDatabase.deleteLineItem` over `LineItemRepository.delete`:
not-found reports `false`; otherwise tag associations and the row are
deleted atomically and the owning account is recalculated. -/
def deleteLineItem (db : DB) (id : Nat) : DB × Bool :=
  match db.lineItems.find? (fun li => li.id == id) with
  | none => (db, false)
  | some cur =>
    (recalculateRunningBalances (liRemoved db id) cur.accountId, true)

/-- The mutating ledger operations exposed by the MCP tool surface that can
touch line items or their ordering. -/
inductive Op where
  | createTx (inp : CreateTxInput)
  | updateTx (id : Nat) (u : TxUpdates)
  | deleteTx (id : Nat)
  | addLineItem (txId accountId : Nat) (amount : Int) (memo : Option String)
  | editLineItem (id : Nat) (u : LineItemUpdates)
  | removeLineItem (id : Nat)
deriving Repr, DecidableEq

/-- Interpretation of one operation (the happy-path store oracle accepts
every insert). -/
def applyOp (db : DB) : Op → DB
  | .createTx inp => createTransaction (fun _ => true) inp db
  | .updateTx id u => (updateTransaction db id u).1
  | .deleteTx id => (deleteTransaction db id).1
  | .addLineItem txId accountId amount memo =>
      addLineItemTool db txId accountId amount memo
  | .editLineItem id u => (updateLineItem db id u).1
  | .removeLineItem id => (deleteLineItem db id).1

/-- Interpretation of a sequence of operations. -/
def applyOps (db : DB) (ops : List Op) : DB := ops.foldl applyOp db

/-- Canonical tag name: `name.toUpperCase().trim()` in
`TagRepository.create`. -/
def canonicalTagName (name : String) : String := name.toUpper.trim

/-- `TagRepository.create`: look the canonical name up first and return the
existing id if found; otherwise insert a new `ZTAG` row. -/
def createTag (db : DB) (name : String) : Nat × DB :=
  let canonical := canonicalTagName name
  match db.tags.find? (fun t => t.canonicalName == canonical) with
  | some t => (t.id, db)
  | none =>
    (db.nextTagId,
     { db with
        tags := db.tags ++ [⟨db.nextTagId, name.trim, canonical⟩],
        nextTagId := db.nextTagId + 1 })

/-- `TransactionTemplateRepository.delete` /
`BanktivityDatabase.deleteTransactionTemplate`: delete the template's
`ZLINEITEMTEMPLATE` rows, every `ZTEMPLATESELECTOR` row referencing it
(both `Z_ENT` kinds — the statement carries no `Z_ENT` filter), and the
template row, in one atomic unit; returns `true` unconditionally. -/
def deleteTransactionTemplate (db : DB) (templateId : Nat) : DB × Bool :=
  ({ db with
      lineItemTemplates :=
        db.lineItemTemplates.filter (fun lt => !(lt.templateId == templateId)),
      selectors :=
        db.selectors.filter (fun s => !(s.templateId == templateId)),
      templates :=
        db.templates.filter (fun t => !(t.id == templateId)) }, true)

/-- An import rule as returned by `ImportRuleRepository.list`. -/
structure ImportRule where
  id : Nat
  templateId : Nat
  templateTitle : String
  pattern : Option String
  accountId : Option String
  payee : Option String
deriving Repr, DecidableEq

/-- `Z_ENT.IMPORT_SOURCE_TEMPLATE_SELECTOR`. -/
def importSelectorEnt : Nat := 49

/-- `Z_ENT.SCHEDULED_TEMPLATE_SELECTOR`. -/
def scheduledSelectorEnt : Nat := 52

/-- `ImportRuleRepository.list`: select the import-rule selectors joined
with their templates, ordered by the owning template's title
(`ORDER BY tt.ZPTITLE`). -/
def getImportRules (db : DB) : List ImportRule :=
  sortLe (fun r₁ r₂ => decide (r₁.templateTitle ≤ r₂.templateTitle))
    (db.selectors.filterMap (fun s =>
      if s.ent == importSelectorEnt then
        (db.templates.find? (fun t => t.id == s.templateId)).map
          (fun t => ⟨s.id, s.templateId, t.title, s.pattern, s.accountId, s.payee⟩)
      else none))

/-- The `for (const rule of rules)` loop of `ImportRuleRepository.match`
with its `try/catch`: a rule is pushed onto the result exactly when its
pattern compiles and tests `true`; a `none` outcome (compilation threw) is
swallowed by the `catch` and the loop continues. -/
def matchRulesLoop (regexTestI : Option String → String → Option Bool)
    (description : String) : List ImportRule → List ImportRule
  | [] => []
  | r :: rs =>
    match regexTestI r.pattern description with
    | some true => r :: matchRulesLoop regexTestI description rs
    | _ => matchRulesLoop regexTestI description rs

/-- `ImportRuleRepository.match`: walk every stored rule, testing
`new RegExp(rule.pattern, "i").test(description)` inside `try/catch`.
`regexTestI p desc` is the oracle for the JavaScript regular-expression
engine: `none` models a pattern whose compilation throws (the `catch`
skips the rule), `some b` the case-insensitive test outcome. -/
def matchImportRules (regexTestI : Option String → String → Option Bool)
    (db : DB) (description : String) : List ImportRule :=
  matchRulesLoop regexTestI description (getImportRules db)

/-- Input of `ScheduledTransactionRepository.create`. -/
structure CreateScheduleInput where
  templateId : Nat
  startDate : Int
  accountId : Option String
  repeatInterval : Option Int
  repeatMultiplier : Option Int
  reminderDays : Option Int
deriving Repr, DecidableEq

/-- First statement of `ScheduledTransactionRepository.create`: insert the
auxiliary `ZRECURRINGTRANSACTION` row carrying the reminder lead time
(default 7) and the first-unprocessed-event date initialized to the start
date. -/
def insertRecurringRow (db : DB) (inp : CreateScheduleInput) : DB :=
  { db with
    recurrings := db.recurrings ++
      [⟨db.nextRecurringId, inp.reminderDays.getD 7, inp.startDate⟩],
    nextRecurringId := db.nextRecurringId + 1 }

/-- Second statement of `ScheduledTransactionRepository.create`: insert the
`ZTEMPLATESELECTOR` row referencing both the template and the new
recurring-transaction id, with next date initialized to the start date and
defaults interval 1 / multiplier 1 / reminder 7. -/
def insertScheduleSelectorRow (db : DB) (inp : CreateScheduleInput)
    (recurringId : Nat) : DB :=
  { db with
    selectors := db.selectors ++
      [⟨db.nextSelectorId, scheduledSelectorEnt, inp.templateId, none,
        inp.accountId, none, some recurringId, some inp.startDate,
        some inp.startDate, some (inp.repeatInterval.getD 1),
        some (inp.repeatMultiplier.getD 1), some (inp.reminderDays.getD 7)⟩],
    nextSelectorId := db.nextSelectorId + 1 }

/-- `ScheduledTransactionRepository.create`: the two `INSERT` statements run
back to back with no wrapping `db.transaction(...)`, so each is its own
implicit atomic unit.  `selectorInsertOk = false` models a failure of the
second insert: the first insert stays committed. -/
def createScheduledTransaction (selectorInsertOk : Bool) (db : DB)
    (inp : CreateScheduleInput) : DB :=
  let recurringId := db.nextRecurringId
  let db1 := insertRecurringRow db inp
  if selectorInsertOk then insertScheduleSelectorRow db1 inp recurringId else db1

/-- The atomic units executed by `ScheduledTransactionRepository.create`:
two single-statement implicit transactions. -/
def createScheduledTransactionUnits (selectorInsertOk : Bool)
    (inp : CreateScheduleInput) : List (DB → Option DB) :=
  [fun db => some (insertRecurringRow db inp),
   fun db =>
     if selectorInsertOk then
       some (insertScheduleSelectorRow db inp (db.nextRecurringId - 1))
     else none]

/-- Line items with pairwise-distinct ids below the id counter, and
transactions likewise: guaranteed by the store's `Z_PK INTEGER PRIMARY KEY`
columns. -/
def WF (db : DB) : Prop :=
  db.transactions.Pairwise (fun t₁ t₂ => t₁.id ≠ t₂.id) ∧
  (∀ t ∈ db.transactions, t.id < db.nextTxId) ∧
  db.lineItems.Pairwise (fun l₁ l₂ => l₁.id ≠ l₂.id) ∧
  (∀ li ∈ db.lineItems, li.id < db.nextLineItemId)

/-- Every line item's owning transaction row exists. -/
def RefInt (db : DB) : Prop :=
  ∀ li ∈ db.lineItems, ∃ t ∈ db.transactions, t.id = li.txId

/-- The prefix sum of account `a`'s line-item amounts over the ordering
keys up to and including `(dt, i)`. -/
def sumUpTo (db : DB) (a : Nat) (dt : Int) (i : Nat) : Int :=
  (((selectAccountEntries db a).filter
      (fun e => keyLE e.date e.id dt i)).map (fun e => e.amount)).sum

/-- The running-balance invariant for account `a`: every line item of the
account whose owning transaction exists stores the prefix sum of the
account's amounts up to and including its own `(date, id)` ordering key. -/
def Balanced (db : DB) (a : Nat) : Prop :=
  ∀ li ∈ db.lineItems, li.accountId = a →
    ∀ dt, txDate db li.txId = some dt →
      li.runningBalance = sumUpTo db a dt li.id

/-- The running balance stored on the chronologically-last line item of an
account under the `(transaction date, line-item id)` ordering, or 0 when
the account has no line items. -/
def lastRunningBalance (db : DB) (a : Nat) : Int :=
  match (sortLe entryLE (selectAccountEntries db a)).getLast? with
  | none => 0
  | some e =>
    match db.lineItems.find? (fun li => li.id == e.id) with
    | some li => li.runningBalance
    | none => 0

/-- The line-item rows appended by the create loop of
`TransactionRepository.create`, with consecutive fresh ids and running
balance 0. -/
def mkNewItems (startId txId : Nat) : List LineItemInput → List LineItemRow
  | [] => []
  | it :: its =>
    ⟨startId, it.accountId, txId, it.amount, it.memo, 0, false⟩ ::
      mkNewItems (startId + 1) txId its

/-- Well-formedness, referential integrity, and the running-balance
invariant for every account. -/
def Inv (db : DB) : Prop := WF db ∧ RefInt db ∧ ∀ b, Balanced db b


-- ===== recalculation write set =====

/-- The write set of one recalculation run. -/
def recalcUpdates (db : DB) (a : Nat) : List (Nat × Int) :=
  assignBalances 0 (sortLe entryLE (selectAccountEntries db a))

/-- The per-row effect of applying a write set. -/
def applyUpdates (updates : List (Nat × Int)) (li : LineItemRow) : LineItemRow :=
  match updates.lookup li.id with
  | some rb => { li with runningBalance := rb }
  | none => li

-- ===== theorems: date codec =====

/-- Month part of the round trip: for each month, the day-of-shifted-year
formula is inverted exactly by the recovery formulas. -/
theorem month_recover (y m d : Int) (hm1 : 1 ≤ m) (hm12 : m ≤ 12)
    (hd1 : 1 ≤ d) (hdm : d ≤ daysInMonth y m) :
    0 ≤ dayOfShiftedYear m d ∧ dayOfShiftedYear m d ≤ 365 ∧
    (dayOfShiftedYear m d = 365 → m = 2 ∧ d = 29) ∧
    (5 * dayOfShiftedYear m d + 2) / 153 = monthIdx m ∧
    dayOfShiftedYear m d - (153 * monthIdx m + 2) / 5 + 1 = d ∧
    monthFromIdx (monthIdx m) = m ∧
    (m ≤ 2 ↔ 10 ≤ monthIdx m) := by
  unfold daysInMonth at hdm
  unfold dayOfShiftedYear monthIdx monthFromIdx
  interval_cases m <;> simp_all <;> omega

set_option maxHeartbeats 4000000 in
/-- Year-of-era part of the round trip: the day-of-era decomposition into a
year-of-era and a day-of-shifted-year is inverted exactly by the recovery
formulas.  The side condition ties the 366th day to leap years. -/
theorem yoe_recover (yoe doy : Int) (h1 : 0 ≤ yoe) (h2 : yoe ≤ 399)
    (h3 : 0 ≤ doy) (h4 : doy ≤ 365)
    (h5 : doy = 365 →
      ((yoe + 1) % 4 = 0 ∧ ¬ (yoe + 1) % 100 = 0) ∨ (yoe + 1) % 400 = 0) :
    yoeFromDoe (dayOfEra yoe doy) = yoe ∧
    dayOfEra yoe doy - dayOfEra yoe 0 = doy := by
  unfold yoeFromDoe dayOfEra
  interval_cases yoe <;> omega

/-- Evaluating `civilFromDays` on an explicit era decomposition. -/
theorem civilFromDays_spec (era doe : Int) (h0 : 0 ≤ doe) (h1 : doe ≤ 146096) :
    civilFromDays (era * 146097 + doe - 719468) =
      (if monthFromIdx ((5 * (doe - dayOfEra (yoeFromDoe doe) 0) + 2) / 153) ≤ 2
         then yoeFromDoe doe + era * 400 + 1 else yoeFromDoe doe + era * 400,
       monthFromIdx ((5 * (doe - dayOfEra (yoeFromDoe doe) 0) + 2) / 153),
       (doe - dayOfEra (yoeFromDoe doe) 0)
         - (153 * ((5 * (doe - dayOfEra (yoeFromDoe doe) 0) + 2) / 153) + 2) / 5 + 1) := by
  have hz : era * 146097 + doe - 719468 + 719468 = era * 146097 + doe := by ring
  have hdiv : (era * 146097 + doe) / 146097 = era := by omega
  have hmod : (era * 146097 + doe) % 146097 = doe := by omega
  simp only [civilFromDays, hz, hdiv, hmod]

/-- Round trip of the civil-date/day-count conversion on valid dates. -/
theorem civil_roundTrip (y m d : Int) (h : ValidDate y m d) :
    civilFromDays (daysFromCivil y m d) = (y, m, d) := by
  obtain ⟨hy0, hy9999, hm1, hm12, hd1, hdm⟩ := h
  obtain ⟨hdoy0, hdoy365, hdoyFeb, hmpR, hdR, hmR, hmIff⟩ :=
    month_recover y m d hm1 hm12 hd1 hdm
  set doy := dayOfShiftedYear m d with hdoy
  set yAdj := shiftedYear y m with hyAdj
  have hyAdjVal : yAdj = if m ≤ 2 then y - 1 else y := by rw [hyAdj, shiftedYear]
  set era := yAdj / 400 with hera
  set yoe := yAdj % 400 with hyoe
  have hyoe0 : 0 ≤ yoe := by omega
  have hyoe399 : yoe ≤ 399 := by omega
  have hyAdjEq : yAdj = era * 400 + yoe := by omega
  have hleap : doy = 365 →
      ((yoe + 1) % 4 = 0 ∧ ¬ (yoe + 1) % 100 = 0) ∨ (yoe + 1) % 400 = 0 := by
    intro h365
    obtain ⟨hm2, hd29⟩ := hdoyFeb h365
    subst hm2
    have hy1 : yAdj = y - 1 := by simpa using hyAdjVal
    have hLy : isLeap y = true := by
      by_contra hL
      rw [Bool.not_eq_true] at hL
      simp [daysInMonth, hL] at hdm
      omega
    have hLy' : (y % 4 = 0 ∧ ¬ y % 100 = 0) ∨ y % 400 = 0 := by
      simpa [isLeap, Bool.or_eq_true, Bool.and_eq_true, decide_eq_true_eq,
        bne_iff_ne] using hLy
    omega
  obtain ⟨hyoeR, hdoyR⟩ := yoe_recover yoe doy hyoe0 hyoe399 hdoy0 hdoy365 hleap
  have hdoe0 : 0 ≤ dayOfEra yoe doy := by unfold dayOfEra; omega
  have hdoe1 : dayOfEra yoe doy ≤ 146096 := by unfold dayOfEra; omega
  have hD : daysFromCivil y m d = era * 146097 + dayOfEra yoe doy - 719468 := by
    rw [daysFromCivil, ← hyAdj, ← hdoy, ← hera, ← hyoe]
  rw [hD, civilFromDays_spec era (dayOfEra yoe doy) hdoe0 hdoe1, hyoeR, hdoyR,
    hmpR, hdR, hmR]
  by_cases hc : m ≤ 2
  · have : yAdj = y - 1 := by simp [hyAdjVal, hc]
    simp [hc]
    omega
  · have : yAdj = y := by simp [hyAdjVal, hc]
    simp [hc]
    omega

/-- Round-trip law of the date codec on valid dates, and the origin law:
the Core Data numeric epoch of 2001-01-01 is 0. -/
theorem dateCodec_roundTrip (y m d : Int) (h : ValidDate y m d) :
    coreDataToISO (isoToCoreData y m d) = (y, m, d) ∧
    isoToCoreData 2001 1 1 = 0 := by
  constructor
  · have h86400 : (86400 : Int) ≠ 0 := by norm_num
    have : isoToCoreData y m d + coreDataEpochOffset = daysFromCivil y m d * 86400 := by
      unfold isoToCoreData; ring
    rw [coreDataToISO, this, Int.mul_ediv_cancel _ h86400]
    exact civil_roundTrip y m d h
  · decide

/-- The round trip and the origin law hold at the concrete leap date
2024-02-29. -/
theorem dateCodec_roundTrip_witness :
    ValidDate 2024 2 29 ∧
    (coreDataToISO (isoToCoreData 2024 2 29) = (2024, 2, 29) ∧
      isoToCoreData 2001 1 1 = 0) :=
  ⟨by decide, dateCodec_roundTrip 2024 2 29 (by decide)⟩

-- ===== general list toolkit =====

theorem find?_append_of_isSome {l₁ l₂ : List α} (p : α → Bool)
    (h : (l₁.find? p).isSome) : (l₁ ++ l₂).find? p = l₁.find? p := by
  rw [List.find?_append]
  cases hf : l₁.find? p with
  | none => rw [hf] at h; cases h
  | some x => rfl

theorem mem_distinctKeep {x : Nat} : ∀ {l : List Nat}, x ∈ distinctKeep l ↔ x ∈ l := by
  intro l
  induction l with
  | nil => simp [distinctKeep]
  | cons y ys ih =>
    simp only [distinctKeep, List.mem_cons, List.mem_filter]
    constructor
    · rintro (rfl | ⟨hx, _⟩)
      · exact .inl rfl
      · exact .inr (ih.mp hx)
    · rintro (rfl | hx)
      · exact .inl rfl
      · by_cases hxy : x = y
        · exact .inl hxy
        · exact .inr ⟨ih.mpr hx, by simpa using hxy⟩

theorem insertLe_perm (le : α → α → Bool) (x : α) (l : List α) :
    (insertLe le x l).Perm (x :: l) := by
  induction l with
  | nil => exact List.Perm.refl _
  | cons y ys ih =>
    rw [insertLe]
    split
    · exact List.Perm.refl _
    · exact (ih.cons y).trans (List.Perm.swap x y ys)

theorem sortLe_perm (le : α → α → Bool) (l : List α) :
    (sortLe le l).Perm l := by
  induction l with
  | nil => exact List.Perm.refl _
  | cons x xs ih =>
    have : sortLe le (x :: xs) = insertLe le x (sortLe le xs) := rfl
    rw [this]
    exact (insertLe_perm le x (sortLe le xs)).trans (ih.cons x)

theorem pairwise_insertLe (le : α → α → Bool)
    (htot : ∀ a b, le a b = true ∨ le b a = true)
    (htrans : ∀ a b c, le a b = true → le b c = true → le a c = true)
    (x : α) {l : List α} (h : l.Pairwise (fun a b => le a b = true)) :
    (insertLe le x l).Pairwise (fun a b => le a b = true) := by
  induction l with
  | nil => simp [insertLe]
  | cons y ys ih =>
    rw [insertLe]
    rcases List.pairwise_cons.mp h with ⟨hy, hys⟩
    split
    · rename_i hxy
      exact List.pairwise_cons.mpr ⟨by
        intro b hb
        rcases List.mem_cons.mp hb with rfl | hb
        · exact hxy
        · exact htrans x y b hxy (hy b hb), h⟩
    · rename_i hxy
      have hyx : le y x = true := (htot x y).resolve_left hxy
      refine List.pairwise_cons.mpr ⟨?_, ih hys⟩
      intro b hb
      have := (insertLe_perm le x ys).mem_iff.mp hb
      rcases List.mem_cons.mp this with rfl | hb'
      · exact hyx
      · exact hy b hb'

theorem sortLe_pairwise (le : α → α → Bool)
    (htot : ∀ a b, le a b = true ∨ le b a = true)
    (htrans : ∀ a b c, le a b = true → le b c = true → le a c = true)
    (l : List α) :
    (sortLe le l).Pairwise (fun a b => le a b = true) := by
  induction l with
  | nil => simp [sortLe]
  | cons x xs ih => exact pairwise_insertLe le htot htrans x ih

theorem pairwise_filterMap_of {R : α → α → Prop} {S : β → β → Prop}
    (f : α → Option β)
    (hf : ∀ a b x y, R a b → f a = some x → f b = some y → S x y) :
    ∀ {l : List α}, l.Pairwise R → (l.filterMap f).Pairwise S := by
  intro l h
  induction h with
  | nil => simp
  | @cons a l' hr _ ih =>
    rw [List.filterMap_cons]
    cases hfa : f a with
    | none => exact ih
    | some x =>
      refine List.pairwise_cons.mpr ⟨?_, ih⟩
      intro y hy
      obtain ⟨b, hb, hfb⟩ := List.mem_filterMap.mp hy
      exact hf a b x y (hr b hb) hfa hfb

theorem find?_filter_of (l : List α) (p q : α → Bool)
    (h : ∀ x ∈ l, p x = true → q x = true) :
    (l.filter q).find? p = l.find? p := by
  induction l with
  | nil => rfl
  | cons x xs ih =>
    have hx := h x (List.mem_cons_self x xs)
    have ih' := ih (fun y hy => h y (List.mem_cons_of_mem x hy))
    cases hq : q x with
    | true =>
      rw [List.filter_cons_of_pos hq, List.find?_cons, List.find?_cons]
      cases hp : p x
      · exact ih'
      · rfl
    | false =>
      have hp : p x = false := by
        cases hp : p x
        · rfl
        · rw [hx hp] at hq; cases hq
      rw [List.filter_cons_of_neg (by simp [hq]), List.find?_cons, hp, ih']

theorem filterMap_filter_of (l : List α) (q : α → Bool) (f g : α → Option β)
    (hpass : ∀ x ∈ l, q x = true → f x = g x)
    (hdrop : ∀ x ∈ l, q x = false → g x = none) :
    (l.filter q).filterMap f = l.filterMap g := by
  induction l with
  | nil => rfl
  | cons x xs ih =>
    have h1 := hpass x (List.mem_cons_self x xs)
    have h2 := hdrop x (List.mem_cons_self x xs)
    have ih' := ih (fun y hy => hpass y (List.mem_cons_of_mem x hy))
      (fun y hy => hdrop y (List.mem_cons_of_mem x hy))
    cases hq : q x with
    | true =>
      rw [List.filter_cons_of_pos hq, List.filterMap_cons, List.filterMap_cons,
        h1 hq, ih']
    | false =>
      rw [List.filter_cons_of_neg (by simp [hq]), List.filterMap_cons,
        h2 hq, ih']

theorem filterMap_congr_mem (l : List α) (f g : α → Option β)
    (h : ∀ x ∈ l, f x = g x) : l.filterMap f = l.filterMap g := by
  induction l with
  | nil => rfl
  | cons x xs ih =>
    rw [List.filterMap_cons, List.filterMap_cons, h x (List.mem_cons_self x xs),
      ih (fun y hy => h y (List.mem_cons_of_mem x hy))]

theorem mem_unique_of_pairwise_ne {l : List α} {f : α → Nat}
    (h : l.Pairwise (fun a b => f a ≠ f b)) {x y : α}
    (hx : x ∈ l) (hy : y ∈ l) (hxy : f x = f y) : x = y := by
  induction l with
  | nil => cases hx
  | cons z zs ih =>
    rcases List.pairwise_cons.mp h with ⟨hz, hzs⟩
    rcases List.mem_cons.mp hx with rfl | hx' <;>
      rcases List.mem_cons.mp hy with rfl | hy'
    · rfl
    · exact absurd hxy (hz y hy')
    · exact absurd hxy.symm (hz x hx')
    · exact ih hzs hx' hy'

theorem getLast?_pairwise_spec {R : α → α → Prop} :
    ∀ {l : List α}, l.Pairwise R → ∀ {e}, l.getLast? = some e →
      e ∈ l ∧ ∀ x ∈ l, x = e ∨ R x e := by
  intro l
  induction l with
  | nil => intro _ e he; cases he
  | cons x xs ih =>
    intro h e he
    rcases List.pairwise_cons.mp h with ⟨hx, hxs⟩
    cases xs with
    | nil =>
      simp only [List.getLast?_singleton, Option.some.injEq] at he
      subst he
      exact ⟨List.mem_cons_self _ _, by simp⟩
    | cons y ys =>
      rw [List.getLast?_cons_cons] at he
      obtain ⟨hmem, hall⟩ := ih hxs he
      refine ⟨List.mem_cons_of_mem x hmem, ?_⟩
      intro z hz
      rcases List.mem_cons.mp hz with rfl | hz'
      · exact .inr (hx e hmem)
      · exact hall z hz'

-- ===== ordering key and query-row lemmas =====

theorem entryLE_iff (x y : Entry) :
    entryLE x y = true ↔ x.date < y.date ∨ (x.date = y.date ∧ x.id ≤ y.id) := by
  simp [entryLE, keyLE]

theorem entryLE_refl (x : Entry) : entryLE x x = true := by
  rw [entryLE_iff]
  omega

theorem entryLE_total (x y : Entry) : entryLE x y = true ∨ entryLE y x = true := by
  simp only [entryLE_iff]
  omega

theorem entryLE_trans (x y z : Entry) (h₁ : entryLE x y = true)
    (h₂ : entryLE y z = true) : entryLE x z = true := by
  simp only [entryLE_iff] at *
  omega

theorem not_entryLE_of (x y : Entry) (h : entryLE x y = true) (hne : x.id ≠ y.id) :
    entryLE y x = false := by
  rcases h' : entryLE y x with _ | _
  · rfl
  · simp only [entryLE_iff] at h h'
    exact absurd (by omega : x.id = y.id) hne

theorem entryOf_eq_some {db : DB} {a : Nat} {li : LineItemRow} {e : Entry}
    (h : entryOf db a li = some e) :
    li.accountId = a ∧ txDate db li.txId = some e.date ∧
      e.id = li.id ∧ e.amount = li.amount := by
  unfold entryOf at h
  split at h
  · rename_i hacc
    cases hdt : txDate db li.txId with
    | none => rw [hdt] at h; cases h
    | some dt =>
      rw [hdt] at h
      obtain rfl := Option.some.inj h
      exact ⟨by simpa using hacc, rfl, rfl, rfl⟩
  · cases h

theorem entryOf_some_of {db : DB} {a : Nat} {li : LineItemRow} {dt : Int}
    (hacc : li.accountId = a) (hdt : txDate db li.txId = some dt) :
    entryOf db a li = some ⟨li.id, li.amount, dt⟩ := by
  unfold entryOf
  rw [if_pos (by simpa using hacc), hdt]
  rfl

theorem entries_id_pairwise {db : DB} (a : Nat)
    (h : db.lineItems.Pairwise (fun l₁ l₂ => l₁.id ≠ l₂.id)) :
    (selectAccountEntries db a).Pairwise (fun e₁ e₂ => e₁.id ≠ e₂.id) := by
  refine pairwise_filterMap_of (entryOf db a) ?_ h
  intro l₁ l₂ e₁ e₂ hne h₁ h₂
  rw [(entryOf_eq_some h₁).2.2.1, (entryOf_eq_some h₂).2.2.1]
  exact hne

theorem mem_entries_elim {db : DB} {a : Nat} {e : Entry}
    (h : e ∈ selectAccountEntries db a) :
    ∃ li ∈ db.lineItems, li.accountId = a ∧ txDate db li.txId = some e.date ∧
      e.id = li.id ∧ e.amount = li.amount := by
  obtain ⟨li, hli, hf⟩ := List.mem_filterMap.mp h
  obtain ⟨h1, h2, h3, h4⟩ := entryOf_eq_some hf
  exact ⟨li, hli, h1, h2, h3, h4⟩

theorem mem_entries_intro {db : DB} {a : Nat} {li : LineItemRow} {dt : Int}
    (hli : li ∈ db.lineItems) (hacc : li.accountId = a)
    (hdt : txDate db li.txId = some dt) :
    (⟨li.id, li.amount, dt⟩ : Entry) ∈ selectAccountEntries db a :=
  List.mem_filterMap.mpr ⟨li, hli, entryOf_some_of hacc hdt⟩

-- ===== running-balance write-set lemmas =====

theorem assignBalances_fst (acc : Int) :
    ∀ l : List Entry, (assignBalances acc l).map Prod.fst = l.map Entry.id := by
  intro l
  induction l generalizing acc with
  | nil => rfl
  | cons e es ih => simp [assignBalances, ih]

theorem lookup_assignBalances_of_not_mem (acc : Int) {i : Nat} :
    ∀ {l : List Entry}, i ∉ l.map Entry.id →
      (assignBalances acc l).lookup i = none := by
  intro l
  induction l generalizing acc with
  | nil => intro _; rfl
  | cons e es ih =>
    intro h
    simp only [List.map_cons, List.mem_cons, not_or] at h
    have hne : (i == e.id) = false := by simpa using h.1
    rw [assignBalances]
    simp only [List.lookup, hne]
    exact ih (acc + e.amount) h.2

theorem lookup_assignBalances_mem (acc : Int) :
    ∀ {l : List Entry},
      l.Pairwise (fun x y => entryLE x y = true ∧ x.id ≠ y.id) →
      ∀ e ∈ l, (assignBalances acc l).lookup e.id =
        some (acc + ((l.filter (fun x => entryLE x e)).map Entry.amount).sum) := by
  intro l
  induction l generalizing acc with
  | nil => intro _ e he; cases he
  | cons e₀ es ih =>
    intro h e he
    rcases List.pairwise_cons.mp h with ⟨h₀, hes⟩
    rcases List.mem_cons.mp he with rfl | he'
    · have heq : (e.id == e.id) = true := by simp
      rw [assignBalances]
      simp only [List.lookup, heq]
      have hfilter : es.filter (fun x => entryLE x e) = [] := by
        rw [List.filter_eq_nil_iff]
        intro x hx
        obtain ⟨hle, hne⟩ := h₀ x hx
        simp [not_entryLE_of e x hle hne]
      rw [List.filter_cons, if_pos (entryLE_refl e), hfilter]
      simp
    · have hne : (e.id == e₀.id) = false := by
        simp only [beq_eq_false_iff_ne, ne_eq]
        exact fun hh => (h₀ e he').2 hh.symm
      rw [assignBalances]
      simp only [List.lookup, hne]
      rw [ih (acc + e₀.amount) hes e he']
      have hle : entryLE e₀ e = true := (h₀ e he').1
      rw [List.filter_cons, if_pos hle]
      simp only [List.map_cons, List.sum_cons, Option.some.injEq]
      ring

-- ===== recalculation lemmas =====

theorem recalc_lineItems (db : DB) (a : Nat) :
    (recalculateRunningBalances db a).lineItems =
      db.lineItems.map (applyUpdates (recalcUpdates db a)) := rfl

theorem applyUpdates_fields (updates : List (Nat × Int)) (li : LineItemRow) :
    (applyUpdates updates li).id = li.id ∧
    (applyUpdates updates li).accountId = li.accountId ∧
    (applyUpdates updates li).txId = li.txId ∧
    (applyUpdates updates li).amount = li.amount ∧
    (applyUpdates updates li).memo = li.memo ∧
    (applyUpdates updates li).cleared = li.cleared := by
  unfold applyUpdates
  cases updates.lookup li.id <;> simp

theorem txDate_recalc (db : DB) (a : Nat) (txId : Nat) :
    txDate (recalculateRunningBalances db a) txId = txDate db txId := rfl

theorem entries_recalc (db : DB) (a b : Nat) :
    selectAccountEntries (recalculateRunningBalances db a) b =
      selectAccountEntries db b := by
  unfold selectAccountEntries
  rw [recalc_lineItems, List.filterMap_map]
  refine filterMap_congr_mem _ _ _ ?_
  intro li _
  show entryOf (recalculateRunningBalances db a) b (applyUpdates (recalcUpdates db a) li)
    = entryOf db b li
  obtain ⟨h1, h2, h3, h4, _, _⟩ := applyUpdates_fields (recalcUpdates db a) li
  unfold entryOf
  rw [h1, h2, h3, h4]
  rfl

theorem sumUpTo_recalc (db : DB) (a b : Nat) (dt : Int) (i : Nat) :
    sumUpTo (recalculateRunningBalances db a) b dt i = sumUpTo db b dt i := by
  unfold sumUpTo
  rw [entries_recalc]

theorem recalc_ids_pairwise {db : DB} (a : Nat)
    (h : db.lineItems.Pairwise (fun l₁ l₂ => l₁.id ≠ l₂.id)) :
    (recalculateRunningBalances db a).lineItems.Pairwise
      (fun l₁ l₂ => l₁.id ≠ l₂.id) := by
  rw [recalc_lineItems, List.pairwise_map]
  refine h.imp ?_
  intro l₁ l₂ hne
  rw [(applyUpdates_fields _ l₁).1, (applyUpdates_fields _ l₂).1]
  exact hne

theorem recalc_balanced (db : DB) (a : Nat)
    (hids : db.lineItems.Pairwise (fun l₁ l₂ => l₁.id ≠ l₂.id)) :
    Balanced (recalculateRunningBalances db a) a := by
  intro li' hmem hacc dt hdate
  rw [recalc_lineItems] at hmem
  obtain ⟨li, hli, rfl⟩ := List.mem_map.mp hmem
  obtain ⟨hid, haccF, htxF, hamtF, -, -⟩ := applyUpdates_fields (recalcUpdates db a) li
  have hacc' : li.accountId = a := by rw [← haccF]; exact hacc
  have hdt' : txDate db li.txId = some dt := by
    rw [htxF] at hdate
    exact hdate
  set L := sortLe entryLE (selectAccountEntries db a) with hL
  have hperm : L.Perm (selectAccountEntries db a) := sortLe_perm _ _
  have hpwLE : L.Pairwise (fun x y => entryLE x y = true) :=
    sortLe_pairwise entryLE entryLE_total entryLE_trans _
  have hpwNE : L.Pairwise (fun e₁ e₂ => e₁.id ≠ e₂.id) := by
    refine (hperm.pairwise_iff ?_).mpr (entries_id_pairwise a hids)
    intro x y hxy
    exact hxy.symm
  have hpw : L.Pairwise (fun x y => entryLE x y = true ∧ x.id ≠ y.id) :=
    hpwLE.and hpwNE
  have heL : (⟨li.id, li.amount, dt⟩ : Entry) ∈ L :=
    hperm.mem_iff.mpr (mem_entries_intro hli hacc' hdt')
  have hlook := lookup_assignBalances_mem 0 hpw _ heL
  have hwrite : (applyUpdates (recalcUpdates db a) li).runningBalance =
      0 + ((L.filter (fun x => entryLE x ⟨li.id, li.amount, dt⟩)).map
        Entry.amount).sum := by
    unfold applyUpdates
    rw [recalcUpdates, ← hL, hlook]
  have hsum : ((L.filter (fun x => entryLE x ⟨li.id, li.amount, dt⟩)).map
      Entry.amount).sum = sumUpTo db a dt li.id :=
    ((hperm.filter _).map Entry.amount).sum_eq
  rw [hid, sumUpTo_recalc, hwrite, hsum]
  omega

theorem recalc_balanced_other (db : DB) (a b : Nat) (hne : b ≠ a)
    (hids : db.lineItems.Pairwise (fun l₁ l₂ => l₁.id ≠ l₂.id))
    (hb : Balanced db b) :
    Balanced (recalculateRunningBalances db a) b := by
  intro li' hmem hacc dt hdate
  rw [recalc_lineItems] at hmem
  obtain ⟨li, hli, rfl⟩ := List.mem_map.mp hmem
  obtain ⟨hid, haccF, htxF, -, -, -⟩ := applyUpdates_fields (recalcUpdates db a) li
  have hacc' : li.accountId = b := by rw [← haccF]; exact hacc
  have hfix : applyUpdates (recalcUpdates db a) li = li := by
    unfold applyUpdates
    have hnone : (recalcUpdates db a).lookup li.id = none := by
      apply lookup_assignBalances_of_not_mem
      intro hmemId
      obtain ⟨e, heL, heid⟩ := List.mem_map.mp hmemId
      have he : e ∈ selectAccountEntries db a := (sortLe_perm _ _).mem_iff.mp heL
      obtain ⟨lj, hlj, hlja, -, hljid, -⟩ := mem_entries_elim he
      have hsame : li = lj :=
        mem_unique_of_pairwise_ne hids hli hlj (by rw [← heid, hljid])
      rw [hsame, hlja] at hacc'
      exact hne hacc'.symm
    rw [hnone]
  rw [hfix] at hdate ⊢
  have hdt' : txDate db li.txId = some dt := hdate
  rw [sumUpTo_recalc]
  exact hb li hli hacc' dt hdt'

theorem recalc_balanced_all (db : DB) (a b : Nat)
    (hids : db.lineItems.Pairwise (fun l₁ l₂ => l₁.id ≠ l₂.id))
    (h : b = a ∨ Balanced db b) :
    Balanced (recalculateRunningBalances db a) b := by
  by_cases hba : b = a
  · rw [hba]
    exact recalc_balanced db a hids
  · exact recalc_balanced_other db a b hba hids (h.resolve_left hba)

theorem recalc_WF (db : DB) (a : Nat) (h : WF db) :
    WF (recalculateRunningBalances db a) := by
  obtain ⟨htx, htxn, hli, hlin⟩ := h
  refine ⟨htx, htxn, recalc_ids_pairwise a hli, ?_⟩
  intro li' hmem
  rw [recalc_lineItems] at hmem
  obtain ⟨li, hli', rfl⟩ := List.mem_map.mp hmem
  rw [(applyUpdates_fields _ li).1]
  exact hlin li hli'

theorem recalc_RefInt (db : DB) (a : Nat) (h : RefInt db) :
    RefInt (recalculateRunningBalances db a) := by
  intro li' hmem
  rw [recalc_lineItems] at hmem
  obtain ⟨li, hli, rfl⟩ := List.mem_map.mp hmem
  rw [(applyUpdates_fields _ li).2.2.1]
  exact h li hli

theorem foldl_recalc_WF (accs : List Nat) (db : DB) (h : WF db) :
    WF (accs.foldl recalculateRunningBalances db) := by
  induction accs generalizing db with
  | nil => exact h
  | cons a as ih => exact ih _ (recalc_WF db a h)

theorem foldl_recalc_RefInt (accs : List Nat) (db : DB) (h : RefInt db) :
    RefInt (accs.foldl recalculateRunningBalances db) := by
  induction accs generalizing db with
  | nil => exact h
  | cons a as ih => exact ih _ (recalc_RefInt db a h)

theorem foldl_recalc_balanced (accs : List Nat) (db : DB)
    (hids : db.lineItems.Pairwise (fun l₁ l₂ => l₁.id ≠ l₂.id)) (b : Nat)
    (h : b ∈ accs ∨ Balanced db b) :
    Balanced (accs.foldl recalculateRunningBalances db) b := by
  induction accs generalizing db with
  | nil => exact h.resolve_left (by simp)
  | cons a as ih =>
    rw [List.foldl_cons]
    have hids' := recalc_ids_pairwise a hids
    refine ih _ hids' ?_
    rcases h with hmem | hbal
    · rcases List.mem_cons.mp hmem with rfl | has
      · exact .inr (recalc_balanced db b hids)
      · exact .inl has
    · exact .inr (recalc_balanced_all db a b hids (.inr hbal))

theorem balanced_congr (db db' : DB) (b : Nat)
    (hmem : ∀ li, li ∈ db'.lineItems → li.accountId = b →
      (txDate db' li.txId).isSome → li ∈ db.lineItems)
    (hdate : ∀ li ∈ db.lineItems, li.accountId = b →
      txDate db' li.txId = txDate db li.txId)
    (hent : selectAccountEntries db' b = selectAccountEntries db b)
    (hb : Balanced db b) : Balanced db' b := by
  intro li hli hacc dt hdt
  have hli0 : li ∈ db.lineItems := hmem li hli hacc (by rw [hdt]; rfl)
  have hdt0 : txDate db li.txId = some dt := by
    rw [← hdate li hli0 hacc]
    exact hdt
  rw [hb li hli0 hacc dt hdt0]
  unfold sumUpTo
  rw [hent]

-- ===== transaction-create lemmas =====

theorem refInt_txFindSome {db : DB} (h : RefInt db) {li : LineItemRow}
    (hli : li ∈ db.lineItems) :
    (db.transactions.find? (fun t => t.id == li.txId)).isSome := by
  obtain ⟨t, ht, htid⟩ := h li hli
  exact List.find?_isSome.mpr ⟨t, ht, by simpa using htid⟩

theorem foldl_lineItemInsert_spec (txId : Nat) :
    ∀ (its : List LineItemInput) (db : DB),
      (its.foldl
        (fun dbAcc it => (lineItemInsert dbAcc txId it.accountId it.amount it.memo).2)
        db)
        = { db with
            lineItems := db.lineItems ++ mkNewItems db.nextLineItemId txId its,
            nextLineItemId := db.nextLineItemId + its.length } := by
  intro its
  induction its with
  | nil =>
    intro db
    cases db
    simp [mkNewItems]
  | cons it its ih =>
    intro db
    rw [List.foldl_cons, ih]
    cases db
    simp [lineItemInsert, mkNewItems]
    omega

theorem insertTxRows_spec (db : DB) (inp : CreateTxInput) :
    insertTxRows db inp =
      { db with
        transactions := db.transactions ++
          [⟨db.nextTxId, inp.date, inp.title, inp.note, false, false⟩],
        lineItems := db.lineItems ++
          mkNewItems db.nextLineItemId db.nextTxId inp.lineItems,
        nextTxId := db.nextTxId + 1,
        nextLineItemId := db.nextLineItemId + inp.lineItems.length } := by
  unfold insertTxRows
  rw [foldl_lineItemInsert_spec]

theorem mkNewItems_fields (txId : Nat) :
    ∀ (its : List LineItemInput) (startId : Nat) (li : LineItemRow),
      li ∈ mkNewItems startId txId its →
        startId ≤ li.id ∧ li.id < startId + its.length ∧ li.txId = txId ∧
        li.accountId ∈ its.map LineItemInput.accountId ∧
        li.runningBalance = 0 := by
  intro its
  induction its with
  | nil => intro startId li h; cases h
  | cons it its ih =>
    intro startId li h
    rcases List.mem_cons.mp h with rfl | h'
    · simp
    · obtain ⟨h1, h2, h3, h4, h5⟩ := ih (startId + 1) li h'
      refine ⟨by omega, by simp; omega, h3, ?_, h5⟩
      simp only [List.map_cons, List.mem_cons]
      exact .inr h4

theorem mkNewItems_pairwise (txId : Nat) :
    ∀ (its : List LineItemInput) (startId : Nat),
      (mkNewItems startId txId its).Pairwise (fun l₁ l₂ => l₁.id ≠ l₂.id) := by
  intro its
  induction its with
  | nil => intro _; simp [mkNewItems]
  | cons it its ih =>
    intro startId
    rw [mkNewItems]
    refine List.pairwise_cons.mpr ⟨?_, ih (startId + 1)⟩
    intro li hli
    obtain ⟨h1, -, -, -, -⟩ := mkNewItems_fields txId its (startId + 1) li hli
    simp only [ne_eq]
    omega

theorem runUnits_map_recalc (accs : List Nat) (db : DB) :
    runUnits (accs.map (fun a => fun db' =>
      some (recalculateRunningBalances db' a))) db
      = accs.foldl recalculateRunningBalances db := by
  induction accs generalizing db with
  | nil => rfl
  | cons a as ih =>
    rw [List.map_cons, runUnits, List.foldl_cons]
    exact ih _

theorem createTransaction_allOk (inp : CreateTxInput) (db : DB) :
    createTransaction (fun _ => true) inp db =
      (touchedAccounts inp).foldl recalculateRunningBalances
        (insertTxRows db inp) := by
  have hall : inp.lineItems.all (fun _ => true) = true := by simp
  unfold createTransaction createTransactionUnits
  rw [runUnits, hall]
  exact runUnits_map_recalc _ _

theorem inv_createTx (db : DB) (inp : CreateTxInput) (h : Inv db) :
    Inv (createTransaction (fun _ => true) inp db) := by
  obtain ⟨hWF, hRI, hBal⟩ := h
  obtain ⟨htxPW, htxBound, hliPW, hliBound⟩ := hWF
  rw [createTransaction_allOk]
  have hspec := insertTxRows_spec db inp
  have htx1 : (insertTxRows db inp).transactions = db.transactions ++
      [⟨db.nextTxId, inp.date, inp.title, inp.note, false, false⟩] := by
    rw [hspec]
  have hli1 : (insertTxRows db inp).lineItems = db.lineItems ++
      mkNewItems db.nextLineItemId db.nextTxId inp.lineItems := by
    rw [hspec]
  have hntx1 : (insertTxRows db inp).nextTxId = db.nextTxId + 1 := by rw [hspec]
  have hnli1 : (insertTxRows db inp).nextLineItemId
      = db.nextLineItemId + inp.lineItems.length := by
    rw [hspec]
  have hliPW1 : (insertTxRows db inp).lineItems.Pairwise (fun l₁ l₂ => l₁.id ≠ l₂.id) := by
    rw [hli1, List.pairwise_append]
    refine ⟨hliPW, mkNewItems_pairwise _ _ _, ?_⟩
    intro l₁ h₁ l₂ h₂
    obtain ⟨hge, -, -, -, -⟩ := mkNewItems_fields _ _ _ l₂ h₂
    have := hliBound l₁ h₁
    omega
  have hWF1 : WF (insertTxRows db inp) := by
    refine ⟨?_, ?_, hliPW1, ?_⟩
    · rw [htx1, List.pairwise_append]
      refine ⟨htxPW, by simp, ?_⟩
      intro t ht t' ht'
      simp only [List.mem_singleton] at ht'
      subst ht'
      have := htxBound t ht
      simp only [ne_eq]
      omega
    · rw [htx1, hntx1]
      intro t ht
      rcases List.mem_append.mp ht with h' | h'
      · have := htxBound t h'
        omega
      · simp only [List.mem_singleton] at h'
        subst h'
        show db.nextTxId < db.nextTxId + 1
        omega
    · rw [hli1, hnli1]
      intro li hli
      rcases List.mem_append.mp hli with h' | h'
      · have := hliBound li h'
        omega
      · obtain ⟨-, hlt, -, -, -⟩ := mkNewItems_fields _ _ _ li h'
        omega
  have hRI1 : RefInt (insertTxRows db inp) := by
    intro li hli
    rw [hli1] at hli
    rw [htx1]
    rcases List.mem_append.mp hli with h' | h'
    · obtain ⟨t, ht, htid⟩ := hRI li h'
      exact ⟨t, List.mem_append.mpr (.inl ht), htid⟩
    · obtain ⟨-, -, htxid, -, -⟩ := mkNewItems_fields _ _ _ li h'
      refine ⟨_, List.mem_append.mpr (.inr (List.mem_singleton.mpr rfl)), ?_⟩
      rw [htxid]
  refine ⟨foldl_recalc_WF _ _ hWF1, foldl_recalc_RefInt _ _ hRI1, ?_⟩
  intro b
  refine foldl_recalc_balanced _ _ hWF1.2.2.1 b ?_
  by_cases hb : b ∈ touchedAccounts inp
  · exact .inl hb
  · refine .inr (balanced_congr db (insertTxRows db inp) b ?_ ?_ ?_ (hBal b))
    · intro li hli hacc _
      rw [hli1] at hli
      rcases List.mem_append.mp hli with h' | h'
      · exact h'
      · obtain ⟨-, -, -, haccMem, -⟩ := mkNewItems_fields _ _ _ li h'
        exfalso
        apply hb
        rw [hacc] at haccMem
        exact mem_distinctKeep.mpr haccMem
    · intro li hli _
      unfold txDate
      rw [htx1, find?_append_of_isSome _ (refInt_txFindSome hRI hli)]
    · unfold selectAccountEntries
      rw [hli1, List.filterMap_append]
      have hnew : (mkNewItems db.nextLineItemId db.nextTxId inp.lineItems).filterMap
          (entryOf (insertTxRows db inp) b) = [] := by
        rw [List.filterMap_eq_nil_iff]
        intro li hli
        obtain ⟨-, -, -, haccMem, -⟩ := mkNewItems_fields _ _ _ li hli
        unfold entryOf
        rw [if_neg]
        simp only [beq_iff_eq]
        intro hacc
        apply hb
        rw [← hacc]
        exact mem_distinctKeep.mpr haccMem
      rw [hnew, List.append_nil]
      refine filterMap_congr_mem _ _ _ ?_
      intro li hli
      unfold entryOf
      by_cases hacc : (li.accountId == b) = true
      · rw [if_pos hacc, if_pos hacc]
        unfold txDate
        rw [htx1, find?_append_of_isSome _ (refInt_txFindSome hRI hli)]
      · rw [if_neg hacc, if_neg hacc]

-- ===== transaction-update lemmas =====

theorem applyTxUpdates_id (u : TxUpdates) (t : TransactionRow) :
    (applyTxUpdates u t).id = t.id := rfl

theorem find?_txMap (txs : List TransactionRow)
    (g : TransactionRow → TransactionRow) (hg : ∀ t, (g t).id = t.id)
    (x : Nat) :
    (txs.map g).find? (fun t => t.id == x) =
      (txs.find? (fun t => t.id == x)).map g := by
  rw [List.find?_map]
  have hfun : ((fun t => t.id == x) ∘ g) = (fun t : TransactionRow => t.id == x) := by
    funext t
    show ((g t).id == x) = (t.id == x)
    rw [hg]
  rw [hfun]

theorem txMapFun_id (id : Nat) (u : TxUpdates) (t : TransactionRow) :
    (if t.id == id then applyTxUpdates u t else t).id = t.id := by
  split <;> rfl

theorem txMapped_WF (db : DB) (id : Nat) (u : TxUpdates) (h : WF db) :
    WF (txMapped db id u) := by
  obtain ⟨htxPW, htxBound, hliPW, hliBound⟩ := h
  refine ⟨?_, ?_, hliPW, hliBound⟩
  · show (db.transactions.map _).Pairwise _
    rw [List.pairwise_map]
    refine htxPW.imp ?_
    intro t₁ t₂ hne
    rw [txMapFun_id, txMapFun_id]
    exact hne
  · intro t' ht'
    obtain ⟨t, ht, rfl⟩ := List.mem_map.mp ht'
    rw [txMapFun_id]
    exact htxBound t ht

theorem txMapped_RefInt (db : DB) (id : Nat) (u : TxUpdates) (h : RefInt db) :
    RefInt (txMapped db id u) := by
  intro li hli
  obtain ⟨t, ht, htid⟩ := h li hli
  refine ⟨if t.id == id then applyTxUpdates u t else t, ?_, ?_⟩
  · exact List.mem_map_of_mem _ ht
  · rw [txMapFun_id]
    exact htid

theorem txDate_txMapped_of_ne (db : DB) (id : Nat) (u : TxUpdates) (x : Nat)
    (hx : x ≠ id) : txDate (txMapped db id u) x = txDate db x := by
  unfold txDate
  show ((db.transactions.map _).find? _).map _ = _
  rw [find?_txMap _ _ (txMapFun_id id u) x]
  cases hf : db.transactions.find? (fun t => t.id == x) with
  | none => rfl
  | some t =>
    have ht := List.find?_some hf
    simp only [beq_iff_eq] at ht
    show some ((if t.id == id then applyTxUpdates u t else t).date) = some t.date
    rw [if_neg (by simp only [beq_iff_eq]; omega)]

theorem txDate_txMapped_noDate (db : DB) (id : Nat) (u : TxUpdates)
    (hd : u.date = none) (x : Nat) :
    txDate (txMapped db id u) x = txDate db x := by
  unfold txDate
  show ((db.transactions.map _).find? _).map _ = _
  rw [find?_txMap _ _ (txMapFun_id id u) x]
  cases hf : db.transactions.find? (fun t => t.id == x) with
  | none => rfl
  | some t =>
    show some ((if t.id == id then applyTxUpdates u t else t).date) = some t.date
    split
    · show some (applyTxUpdates u t).date = some t.date
      unfold applyTxUpdates
      rw [hd]
      rfl
    · rfl

theorem entries_congr_items_eq (db db' : DB) (b : Nat)
    (hitems : db'.lineItems = db.lineItems)
    (hdate : ∀ li ∈ db.lineItems, li.accountId = b →
      txDate db' li.txId = txDate db li.txId) :
    selectAccountEntries db' b = selectAccountEntries db b := by
  unfold selectAccountEntries
  rw [hitems]
  refine filterMap_congr_mem _ _ _ ?_
  intro li hli
  unfold entryOf
  by_cases hacc : (li.accountId == b) = true
  · rw [if_pos hacc, if_pos hacc, hdate li hli (by simpa using hacc)]
  · rw [if_neg hacc, if_neg hacc]

theorem mem_accountIdsForTx (db : DB) (id : Nat) {li : LineItemRow}
    (hli : li ∈ db.lineItems) (hx : li.txId = id) :
    li.accountId ∈ accountIdsForTx db id := by
  unfold accountIdsForTx
  apply mem_distinctKeep.mpr
  exact List.mem_filterMap.mpr ⟨li, hli, by rw [if_pos (by simpa using hx)]⟩

theorem inv_updateTx (db : DB) (id : Nat) (u : TxUpdates) (h : Inv db) :
    Inv (updateTransaction db id u).1 := by
  unfold updateTransaction
  cases hemp : u.isEmpty with
  | true => exact h
  | false =>
  cases hex : db.transactions.any (fun t => t.id == id) with
  | false => exact h
  | true =>
  obtain ⟨hWF, hRI, hBal⟩ := h
  have hWF1 := txMapped_WF db id u hWF
  have hRI1 := txMapped_RefInt db id u hRI
  cases hdt : u.date.isSome with
  | false =>
    have hd : u.date = none := by
      cases hu : u.date
      · rfl
      · rw [hu] at hdt; cases hdt
    refine ⟨hWF1, hRI1, ?_⟩
    intro b
    refine balanced_congr db (txMapped db id u) b ?_ ?_ ?_ (hBal b)
    · intro li hli _ _
      exact hli
    · intro li _ _
      exact txDate_txMapped_noDate db id u hd li.txId
    · exact entries_congr_items_eq db (txMapped db id u) b rfl
        (fun li _ _ => txDate_txMapped_noDate db id u hd li.txId)
  | true =>
    refine ⟨foldl_recalc_WF _ _ hWF1, foldl_recalc_RefInt _ _ hRI1, ?_⟩
    intro b
    refine foldl_recalc_balanced _ _ hWF1.2.2.1 b ?_
    by_cases hmem : b ∈ accountIdsForTx (txMapped db id u) id
    · exact .inl hmem
    · refine .inr (balanced_congr db (txMapped db id u) b ?_ ?_ ?_ (hBal b))
      · intro li hli _ _
        exact hli
      · intro li hli hacc
        refine txDate_txMapped_of_ne db id u li.txId ?_
        intro hxeq
        exact hmem (hacc ▸ mem_accountIdsForTx (txMapped db id u) id hli hxeq)
      · refine entries_congr_items_eq db (txMapped db id u) b rfl ?_
        intro li hli hacc
        refine txDate_txMapped_of_ne db id u li.txId ?_
        intro hxeq
        exact hmem (hacc ▸ mem_accountIdsForTx (txMapped db id u) id hli hxeq)

-- ===== transaction-delete lemmas =====

theorem txRemoved_WF (db : DB) (id : Nat) (h : WF db) : WF (txRemoved db id) := by
  obtain ⟨htxPW, htxBound, hliPW, hliBound⟩ := h
  refine ⟨htxPW.sublist (List.filter_sublist _), ?_,
    hliPW.sublist (List.filter_sublist _), ?_⟩
  · intro t ht
    exact htxBound t (List.mem_of_mem_filter ht)
  · intro li hli
    exact hliBound li (List.mem_of_mem_filter hli)

theorem txRemoved_RefInt (db : DB) (id : Nat) (h : RefInt db) :
    RefInt (txRemoved db id) := by
  intro li hli
  obtain ⟨hmem, hkeep⟩ := List.mem_filter.mp hli
  obtain ⟨t, ht, htid⟩ := h li hmem
  refine ⟨t, List.mem_filter.mpr ⟨ht, ?_⟩, htid⟩
  simp only [Bool.not_eq_eq_eq_not, Bool.not_true, beq_eq_false_iff_ne] at hkeep ⊢
  omega

theorem inv_deleteTx (db : DB) (id : Nat) (h : Inv db) :
    Inv (deleteTransaction db id).1 := by
  obtain ⟨hWF, hRI, hBal⟩ := h
  unfold deleteTransaction
  have hWF1 := txRemoved_WF db id hWF
  have hRI1 := txRemoved_RefInt db id hRI
  refine ⟨foldl_recalc_WF _ _ hWF1, foldl_recalc_RefInt _ _ hRI1, ?_⟩
  intro b
  refine foldl_recalc_balanced _ _ hWF1.2.2.1 b ?_
  by_cases hmem : b ∈ accountIdsForTx db id
  · exact .inl hmem
  · refine .inr (balanced_congr db (txRemoved db id) b ?_ ?_ ?_ (hBal b))
    · intro li hli _ _
      exact List.mem_of_mem_filter hli
    · intro li hli hacc
      have hne : li.txId ≠ id := by
        intro hxeq
        exact hmem (hacc ▸ mem_accountIdsForTx db id hli hxeq)
      unfold txDate
      show ((db.transactions.filter _).find? _).map _ = _
      rw [find?_filter_of]
      intro t _ hp
      simp only [beq_iff_eq] at hp
      simp only [Bool.not_eq_eq_eq_not, Bool.not_true, beq_eq_false_iff_ne]
      omega
    · show ((db.lineItems.filter _).filterMap _) = _
      refine filterMap_filter_of _ _ _ _ ?_ ?_
      · intro li hli hq
        simp only [Bool.not_eq_eq_eq_not, Bool.not_true, beq_eq_false_iff_ne] at hq
        unfold entryOf
        by_cases hacc : (li.accountId == b) = true
        · rw [if_pos hacc, if_pos hacc]
          have : txDate (txRemoved db id) li.txId = txDate db li.txId := by
            unfold txDate
            show ((db.transactions.filter _).find? _).map _ = _
            rw [find?_filter_of]
            intro t _ hp
            simp only [beq_iff_eq] at hp
            simp only [Bool.not_eq_eq_eq_not, Bool.not_true, beq_eq_false_iff_ne]
            omega
          rw [this]
        · rw [if_neg hacc, if_neg hacc]
      · intro li hli hq
        simp only [Bool.not_eq_eq_eq_not, Bool.not_false, beq_iff_eq] at hq
        unfold entryOf
        rw [if_neg]
        simp only [beq_iff_eq]
        intro hacc
        exact hmem (hacc ▸ mem_accountIdsForTx db id hli hq)

-- ===== line-item operation lemmas =====

theorem inv_addLineItem (db : DB) (txId accountId : Nat) (amount : Int)
    (memo : Option String) (h : Inv db) :
    Inv (addLineItemTool db txId accountId amount memo) := by
  obtain ⟨⟨htxPW, htxBound, hliPW, hliBound⟩, hRI, hBal⟩ := h
  unfold addLineItemTool
  cases hex : db.transactions.any (fun t => t.id == txId) with
  | false => exact ⟨⟨htxPW, htxBound, hliPW, hliBound⟩, hRI, hBal⟩
  | true =>
  show Inv (addLineItemToTransaction db txId accountId amount memo)
  unfold addLineItemToTransaction
  have hliPW1 : (lineItemInsert db txId accountId amount memo).2.lineItems.Pairwise
      (fun l₁ l₂ => l₁.id ≠ l₂.id) := by
    show (db.lineItems ++ [_]).Pairwise _
    rw [List.pairwise_append]
    refine ⟨hliPW, by simp, ?_⟩
    intro l₁ h₁ l₂ h₂
    simp only [List.mem_singleton] at h₂
    subst h₂
    have := hliBound l₁ h₁
    show l₁.id ≠ db.nextLineItemId
    omega
  have hWF1 : WF (lineItemInsert db txId accountId amount memo).2 := by
    refine ⟨htxPW, htxBound, hliPW1, ?_⟩
    intro li hli
    rcases List.mem_append.mp hli with h' | h'
    · have := hliBound li h'
      show li.id < db.nextLineItemId + 1
      omega
    · simp only [List.mem_singleton] at h'
      subst h'
      show db.nextLineItemId < db.nextLineItemId + 1
      omega
  have hRI1 : RefInt (lineItemInsert db txId accountId amount memo).2 := by
    intro li hli
    rcases List.mem_append.mp hli with h' | h'
    · exact hRI li h'
    · simp only [List.mem_singleton] at h'
      subst h'
      obtain ⟨t, ht, htid⟩ := List.any_eq_true.mp hex
      exact ⟨t, ht, by simpa using htid⟩
  refine ⟨recalc_WF _ _ hWF1, recalc_RefInt _ _ hRI1, ?_⟩
  intro b
  refine recalc_balanced_all _ _ _ hWF1.2.2.1 ?_
  by_cases hb : b = accountId
  · exact .inl hb
  · refine .inr (balanced_congr db _ b ?_ ?_ ?_ (hBal b))
    · intro li hli hacc _
      rcases List.mem_append.mp hli with h' | h'
      · exact h'
      · simp only [List.mem_singleton] at h'
        subst h'
        exact (hb (show b = accountId from hacc.symm)).elim
    · intro li _ _
      rfl
    · unfold selectAccountEntries
      show (db.lineItems ++ [_]).filterMap _ = _
      rw [List.filterMap_append]
      have hnew : ([(⟨db.nextLineItemId, accountId, txId, amount, memo, 0, false⟩ :
          LineItemRow)]).filterMap
          (entryOf (lineItemInsert db txId accountId amount memo).2 b) = [] := by
        rw [List.filterMap_eq_nil_iff]
        intro li hli
        simp only [List.mem_singleton] at hli
        subst hli
        unfold entryOf
        rw [if_neg]
        simp only [beq_iff_eq]
        exact fun hc => hb hc.symm
      rw [hnew, List.append_nil]
      exact filterMap_congr_mem _ _ _ (fun li _ => rfl)

theorem liMapFun_id (id : Nat) (u : LineItemUpdates) (li : LineItemRow) :
    (if li.id == id then applyLineItemUpdates u li else li).id = li.id := by
  split <;> rfl

theorem liMapFun_txId (id : Nat) (u : LineItemUpdates) (li : LineItemRow) :
    (if li.id == id then applyLineItemUpdates u li else li).txId = li.txId := by
  split <;> rfl

theorem inv_editLineItem (db : DB) (id : Nat) (u : LineItemUpdates)
    (h : Inv db) : Inv (updateLineItem db id u).1 := by
  obtain ⟨⟨htxPW, htxBound, hliPW, hliBound⟩, hRI, hBal⟩ := h
  have horig : Inv db := ⟨⟨htxPW, htxBound, hliPW, hliBound⟩, hRI, hBal⟩
  unfold updateLineItem
  cases hf : db.lineItems.find? (fun li => li.id == id) with
  | none => exact horig
  | some cur =>
  cases hemp : u.isEmpty with
  | true => exact horig
  | false =>
  have hcurMem : cur ∈ db.lineItems := List.mem_of_find?_eq_some hf
  have hcurId : cur.id = id := by simpa using List.find?_some hf
  have hWF1 : WF (liMapped db id u) := by
    refine ⟨htxPW, htxBound, ?_, ?_⟩
    · show (db.lineItems.map _).Pairwise _
      rw [List.pairwise_map]
      refine hliPW.imp ?_
      intro l₁ l₂ hne
      rw [liMapFun_id, liMapFun_id]
      exact hne
    · intro li' hli'
      obtain ⟨li, hli, rfl⟩ := List.mem_map.mp hli'
      rw [liMapFun_id]
      exact hliBound li hli
  have hRI1 : RefInt (liMapped db id u) := by
    intro li' hli'
    obtain ⟨li, hli, rfl⟩ := List.mem_map.mp hli'
    rw [liMapFun_txId]
    exact hRI li hli
  refine ⟨foldl_recalc_WF _ _ hWF1, foldl_recalc_RefInt _ _ hRI1, ?_⟩
  intro b
  refine foldl_recalc_balanced _ _ hWF1.2.2.1 b ?_
  by_cases hmem : b ∈ liUpdateAccounts cur u
  · exact .inl hmem
  · have hbOld : b ≠ cur.accountId := by
      intro hc
      exact hmem (mem_distinctKeep.mpr (by simp [hc]))
    have hbNew : ∀ n, u.accountId = some n → b ≠ n := by
      intro n hn hc
      refine hmem (mem_distinctKeep.mpr ?_)
      rw [hn, hc]
      simp [liUpdateAccounts]
    refine .inr (balanced_congr db (liMapped db id u) b ?_ ?_ ?_ (hBal b))
    · intro li' hli' hacc _
      obtain ⟨li, hli, rfl⟩ := List.mem_map.mp hli'
      by_cases hid : (li.id == id) = true
      · exfalso
        have hlicur : li = cur :=
          mem_unique_of_pairwise_ne hliPW hli hcurMem
            (by rw [hcurId]; simpa using hid)
        subst hlicur
        rw [if_pos hid] at hacc
        unfold applyLineItemUpdates at hacc
        cases hn : u.accountId with
        | none =>
          rw [hn] at hacc
          exact hbOld (by simpa using hacc.symm)
        | some n =>
          rw [hn] at hacc
          exact hbNew n hn (by simpa using hacc.symm)
      · rw [if_neg hid]
        exact hli
    · intro li _ _
      rfl
    · unfold selectAccountEntries
      show (db.lineItems.map _).filterMap _ = _
      rw [List.filterMap_map]
      refine filterMap_congr_mem _ _ _ ?_
      intro li hli
      rw [Function.comp]
      by_cases hid : (li.id == id) = true
      · have hlicur : li = cur :=
          mem_unique_of_pairwise_ne hliPW hli hcurMem
            (by rw [hcurId]; simpa using hid)
        subst hlicur
        rw [if_pos hid]
        unfold entryOf
        rw [if_neg, if_neg]
        · simp only [beq_iff_eq]
          exact fun hc => hbOld hc.symm
        · simp only [beq_iff_eq]
          unfold applyLineItemUpdates
          cases hn : u.accountId with
          | none =>
            simpa using fun hc => hbOld hc.symm
          | some n =>
            simpa using fun hc => hbNew n hn hc.symm
      · rw [if_neg hid]
        rfl

theorem inv_removeLineItem (db : DB) (id : Nat) (h : Inv db) :
    Inv (deleteLineItem db id).1 := by
  obtain ⟨⟨htxPW, htxBound, hliPW, hliBound⟩, hRI, hBal⟩ := h
  have horig : Inv db := ⟨⟨htxPW, htxBound, hliPW, hliBound⟩, hRI, hBal⟩
  unfold deleteLineItem
  cases hf : db.lineItems.find? (fun li => li.id == id) with
  | none => exact horig
  | some cur =>
  have hcurMem : cur ∈ db.lineItems := List.mem_of_find?_eq_some hf
  have hcurId : cur.id = id := by simpa using List.find?_some hf
  have hWF1 : WF (liRemoved db id) := by
    refine ⟨htxPW, htxBound, hliPW.sublist (List.filter_sublist _), ?_⟩
    intro li hli
    exact hliBound li (List.mem_of_mem_filter hli)
  have hRI1 : RefInt (liRemoved db id) := by
    intro li hli
    exact hRI li (List.mem_of_mem_filter hli)
  refine ⟨recalc_WF _ _ hWF1, recalc_RefInt _ _ hRI1, ?_⟩
  intro b
  refine recalc_balanced_all _ _ _ hWF1.2.2.1 ?_
  by_cases hb : b = cur.accountId
  · exact .inl hb
  · refine .inr (balanced_congr db (liRemoved db id) b ?_ ?_ ?_ (hBal b))
    · intro li hli _ _
      exact List.mem_of_mem_filter hli
    · intro li _ _
      rfl
    · show (db.lineItems.filter _).filterMap _ = _
      refine filterMap_filter_of _ _ _ _ ?_ ?_
      · intro li _ _
        rfl
      · intro li hli hq
        simp only [Bool.not_eq_eq_eq_not, Bool.not_false, beq_iff_eq] at hq
        have hlicur : li = cur :=
          mem_unique_of_pairwise_ne hliPW hli hcurMem (by rw [hcurId, hq])
        subst hlicur
        unfold entryOf
        rw [if_neg]
        simp only [beq_iff_eq]
        exact fun hc => hb hc.symm

-- ===== operation-sequence invariant =====

theorem inv_applyOp (db : DB) (op : Op) (h : Inv db) : Inv (applyOp db op) := by
  cases op with
  | createTx inp => exact inv_createTx db inp h
  | updateTx id u => exact inv_updateTx db id u h
  | deleteTx id => exact inv_deleteTx db id h
  | addLineItem txId accountId amount memo =>
    exact inv_addLineItem db txId accountId amount memo h
  | editLineItem id u => exact inv_editLineItem db id u h
  | removeLineItem id => exact inv_removeLineItem db id h

theorem inv_emptyDB : Inv emptyDB := by
  refine ⟨⟨List.Pairwise.nil, ?_, List.Pairwise.nil, ?_⟩, ?_, ?_⟩
  · intro t ht; cases ht
  · intro li hli; cases hli
  · intro li hli; cases hli
  · intro b li hli; cases hli

theorem inv_applyOps (ops : List Op) (db : DB) (h : Inv db) :
    Inv (applyOps db ops) := by
  induction ops generalizing db with
  | nil => exact h
  | cons op ops ih => exact ih _ (inv_applyOp db op h)

-- ===== balance agreement lemmas =====

theorem amounts_eq_entries (db : DB) (a : Nat) (hRI : RefInt db) :
    ((db.lineItems.filter (fun li => li.accountId == a)).map
      (fun li => li.amount)) =
    (selectAccountEntries db a).map Entry.amount := by
  unfold selectAccountEntries
  have hsome : ∀ li ∈ db.lineItems, (txDate db li.txId).isSome := by
    intro li hli
    obtain ⟨t, ht, htid⟩ := hRI li hli
    unfold txDate
    rw [show db.transactions.find? (fun t' => t'.id == li.txId)
        = db.transactions.find? (fun t' => t'.id == li.txId) from rfl]
    have := refInt_txFindSome hRI hli
    cases hfind : db.transactions.find? (fun t' => t'.id == li.txId) with
    | none => rw [hfind] at this; cases this
    | some t' => rfl
  revert hsome
  generalize db.lineItems = l
  intro hsome
  induction l with
  | nil => rfl
  | cons li l ih =>
    have hli := hsome li (List.mem_cons_self li l)
    have ih' := ih (fun x hx => hsome x (List.mem_cons_of_mem li hx))
    cases hacc : (li.accountId == a) with
    | true =>
      rw [List.filter_cons, if_pos hacc, List.filterMap_cons]
      cases hdt : txDate db li.txId with
      | none => rw [hdt] at hli; cases hli
      | some dt =>
        rw [entryOf_some_of (by simpa using hacc) hdt]
        simp only [List.map_cons]
        rw [ih']
    | false =>
      rw [List.filter_cons, if_neg (by simp [hacc]), List.filterMap_cons]
      have : entryOf db a li = none := by
        unfold entryOf
        rw [if_neg (by simp [hacc])]
      rw [this, ih']

theorem balance_eq_lastRB (db : DB) (a : Nat) (hInv : Inv db) :
    getAccountBalance db a = lastRunningBalance db a := by
  obtain ⟨⟨-, -, hliPW, -⟩, hRI, hBal⟩ := hInv
  unfold lastRunningBalance
  cases hlast : (sortLe entryLE (selectAccountEntries db a)).getLast? with
  | none =>
    have hsorted : sortLe entryLE (selectAccountEntries db a) = [] := by
      cases hs : sortLe entryLE (selectAccountEntries db a) with
      | nil => rfl
      | cons x xs =>
        rw [hs] at hlast
        cases xs <;> simp [List.getLast?] at hlast
    have hent : selectAccountEntries db a = [] := by
      have hp := sortLe_perm entryLE (selectAccountEntries db a)
      rw [hsorted] at hp
      exact hp.symm.eq_nil
    unfold getAccountBalance
    rw [amounts_eq_entries db a hRI, hent]
    rfl
  | some e =>
    have hpwLE := sortLe_pairwise entryLE entryLE_total entryLE_trans
      (selectAccountEntries db a)
    obtain ⟨heMem, hallLE⟩ := getLast?_pairwise_spec hpwLE hlast
    have heEnt : e ∈ selectAccountEntries db a :=
      (sortLe_perm _ _).mem_iff.mp heMem
    obtain ⟨li, hli, hacc, hdt, hid, hamt⟩ := mem_entries_elim heEnt
    have hfind : db.lineItems.find? (fun l => l.id == e.id) = some li := by
      cases hf : db.lineItems.find? (fun l => l.id == e.id) with
      | none =>
        exfalso
        have : (db.lineItems.find? (fun l => l.id == e.id)).isSome :=
          List.find?_isSome.mpr ⟨li, hli, by simp [hid]⟩
        rw [hf] at this
        cases this
      | some lj =>
        have hjMem := List.mem_of_find?_eq_some hf
        have hjId := List.find?_some hf
        simp only [beq_iff_eq] at hjId
        rw [mem_unique_of_pairwise_ne hliPW hjMem hli (by rw [hjId, hid])]
    show getAccountBalance db a =
      (match db.lineItems.find? (fun l => l.id == e.id) with
        | some lj => lj.runningBalance
        | none => 0)
    rw [hfind]
    show getAccountBalance db a = li.runningBalance
    rw [hBal a li hli hacc e.date hdt]
    unfold getAccountBalance sumUpTo
    rw [amounts_eq_entries db a hRI, ← hid]
    have hfilterAll : (selectAccountEntries db a).filter
        (fun x => keyLE x.date x.id e.date e.id) = selectAccountEntries db a := by
      rw [List.filter_eq_self]
      intro x hx
      rcases hallLE x ((sortLe_perm _ _).mem_iff.mpr hx) with rfl | hle
      · exact entryLE_refl x
      · exact hle
    rw [hfilterAll]

-- ===== C1, C7, C10 =====

/-- C1: after any sequence of transaction- and line-item-level create,
update and delete operations starting from an empty store, every line item
of every account stores a running balance equal to the sum of the amounts
of the account's line items whose `(owning transaction date, line-item id)`
ordering key is equal or earlier, inclusive of itself. -/
theorem running_balance_invariant (ops : List Op) (a : Nat) :
    Balanced (applyOps emptyDB ops) a :=
  (inv_applyOps ops emptyDB inv_emptyDB).2.2 a

/-- C7: in every store reachable by the engine's operations, the account
balance computed by summing all of the account's line-item amounts equals
the running balance stored on the chronologically-last line item of the
account (0 when the account has no line items). -/
theorem balance_agreement (ops : List Op) (a : Nat) :
    getAccountBalance (applyOps emptyDB ops) a =
      lastRunningBalance (applyOps emptyDB ops) a :=
  balance_eq_lastRB _ a (inv_applyOps ops emptyDB inv_emptyDB)

theorem applyUpdates_other (db : DB) (a : Nat)
    (hids : db.lineItems.Pairwise (fun l₁ l₂ => l₁.id ≠ l₂.id))
    (li : LineItemRow) (hli : li ∈ db.lineItems) (hacc : li.accountId ≠ a) :
    applyUpdates (recalcUpdates db a) li = li := by
  unfold applyUpdates
  have hnone : (recalcUpdates db a).lookup li.id = none := by
    apply lookup_assignBalances_of_not_mem
    intro hmemId
    obtain ⟨e, heL, heid⟩ := List.mem_map.mp hmemId
    have he : e ∈ selectAccountEntries db a := (sortLe_perm _ _).mem_iff.mp heL
    obtain ⟨lj, hlj, hlja, -, hljid, -⟩ := mem_entries_elim he
    have hsame : li = lj :=
      mem_unique_of_pairwise_ne hids hli hlj (by rw [← heid, hljid])
    rw [hsame, hlja] at hacc
    exact hacc rfl
  rw [hnone]

theorem recalc_as_map (db : DB) (a : Nat) :
    recalculateRunningBalances db a =
      { db with lineItems := db.lineItems.map (applyUpdates (recalcUpdates db a)) } := rfl

theorem applyUpdates_idem (updates : List (Nat × Int)) (li : LineItemRow) :
    applyUpdates updates (applyUpdates updates li) = applyUpdates updates li := by
  unfold applyUpdates
  cases h : updates.lookup li.id with
  | none => rw [h]
  | some rb =>
    have : ({ li with runningBalance := rb } : LineItemRow).id = li.id := rfl
    rw [this, h]

theorem recalc_idempotent (db : DB) (a : Nat) :
    recalculateRunningBalances (recalculateRunningBalances db a) a =
      recalculateRunningBalances db a := by
  have hupd : recalcUpdates (recalculateRunningBalances db a) a =
      recalcUpdates db a := by
    unfold recalcUpdates
    rw [entries_recalc]
  have hmap : (recalculateRunningBalances db a).lineItems.map
      (applyUpdates (recalcUpdates db a)) =
      (recalculateRunningBalances db a).lineItems := by
    rw [recalc_lineItems, List.map_map]
    exact List.map_congr_left
      (fun li _ => applyUpdates_idem (recalcUpdates db a) li)
  rw [recalc_as_map (recalculateRunningBalances db a) a, hupd, hmap]

/-- C10: one recalculation run writes only the running-balance field of the
named account's line items — every other table, every other field of every
line item, and every line item of every other account are left unchanged —
and running it twice in a row produces the same store as running it once. -/
theorem recalc_frame_idempotent (db : DB) (a : Nat)
    (hids : db.lineItems.Pairwise (fun l₁ l₂ => l₁.id ≠ l₂.id)) :
    (recalculateRunningBalances db a).accounts = db.accounts ∧
    (recalculateRunningBalances db a).transactions = db.transactions ∧
    (recalculateRunningBalances db a).tags = db.tags ∧
    (recalculateRunningBalances db a).tagAssocs = db.tagAssocs ∧
    (recalculateRunningBalances db a).templates = db.templates ∧
    (recalculateRunningBalances db a).lineItemTemplates = db.lineItemTemplates ∧
    (recalculateRunningBalances db a).selectors = db.selectors ∧
    (recalculateRunningBalances db a).recurrings = db.recurrings ∧
    (recalculateRunningBalances db a).lineItems =
      db.lineItems.map (applyUpdates (recalcUpdates db a)) ∧
    (∀ li, (applyUpdates (recalcUpdates db a) li).id = li.id ∧
      (applyUpdates (recalcUpdates db a) li).accountId = li.accountId ∧
      (applyUpdates (recalcUpdates db a) li).txId = li.txId ∧
      (applyUpdates (recalcUpdates db a) li).amount = li.amount ∧
      (applyUpdates (recalcUpdates db a) li).memo = li.memo ∧
      (applyUpdates (recalcUpdates db a) li).cleared = li.cleared) ∧
    (∀ li ∈ db.lineItems, li.accountId ≠ a →
      applyUpdates (recalcUpdates db a) li = li) ∧
    recalculateRunningBalances (recalculateRunningBalances db a) a =
      recalculateRunningBalances db a :=
  ⟨rfl, rfl, rfl, rfl, rfl, rfl, rfl, rfl, rfl,
   fun li => applyUpdates_fields _ li,
   fun li hli hacc => applyUpdates_other db a hids li hli hacc,
   recalc_idempotent db a⟩

/-- C10 witness: the frame and idempotence properties hold at a concrete
two-account store. -/
theorem recalc_frame_idempotent_witness :
    (let db : DB := ⟨[⟨1, "Checking", 1006⟩, ⟨2, "Groceries", 7000⟩],
      [⟨1, 100, "t", none, false, false⟩],
      [⟨1, 1, 1, -50, none, 0, false⟩, ⟨2, 2, 1, 50, none, 0, false⟩],
      [], [], [], [], [], [], 2, 3, 1, 1, 1⟩
     (db.lineItems.Pairwise (fun l₁ l₂ => l₁.id ≠ l₂.id)) ∧
      ((recalculateRunningBalances db 1).transactions = db.transactions ∧
       (∀ li ∈ db.lineItems, li.accountId ≠ 1 →
         applyUpdates (recalcUpdates db 1) li = li) ∧
       recalculateRunningBalances (recalculateRunningBalances db 1) 1 =
         recalculateRunningBalances db 1)) := by
  refine ⟨by decide, ?_, ?_, ?_⟩
  · exact (recalc_frame_idempotent _ 1 (by decide)).2.1
  · exact (recalc_frame_idempotent _ 1 (by decide)).2.2.2.2.2.2.2.2.2.2.1
  · exact (recalc_frame_idempotent _ 1 (by decide)).2.2.2.2.2.2.2.2.2.2.2

-- ===== C2 =====

/-- C2 counterexample: transaction creation runs more than one atomic
unit — steps 2-3 (the row inserts) commit inside `db.transaction(...)` and
each step-4 recalculation runs after that, in a unit of its own — so there
is a committed intermediate store (observable if execution stops between
the units) in which the inserted line item still carries running balance 0
instead of its prefix sum 50. -/
theorem createTx_units_counterexample :
    (createTransactionUnits (fun _ => true)
        ⟨"Groceries", 757382400, none, [⟨1, 50, none⟩]⟩).length = 2 ∧
    ((runUnits ((createTransactionUnits (fun _ => true)
          ⟨"Groceries", 757382400, none, [⟨1, 50, none⟩]⟩).take 1)
        emptyDB).lineItems.map (fun li => li.runningBalance)) = [0] ∧
    ((runUnits (createTransactionUnits (fun _ => true)
          ⟨"Groceries", 757382400, none, [⟨1, 50, none⟩]⟩)
        emptyDB).lineItems.map (fun li => li.runningBalance)) = [50] := by
  refine ⟨rfl, ?_, ?_⟩ <;> decide

/-- C2 amended: only steps 2-3 form one atomic unit — the unit list has one
entry for the inserts plus one further unit per touched account — and a
line-item insert the store rejects (e.g. an invalid account reference)
aborts that insert unit, leaving the store exactly unchanged with no
partial rows. -/
theorem createTx_invalid_item_aborts (insOk : LineItemInput → Bool)
    (inp : CreateTxInput) (db : DB)
    (h : ∃ it ∈ inp.lineItems, insOk it = false) :
    createTransaction insOk inp db = db ∧
    (createTransactionUnits insOk inp).length =
      (touchedAccounts inp).length + 1 := by
  constructor
  · have hall : inp.lineItems.all insOk = false := by
      cases hA : inp.lineItems.all insOk
      · rfl
      · obtain ⟨it, hmem, hfalse⟩ := h
        have := List.all_eq_true.mp hA it hmem
        rw [this] at hfalse
        exact absurd hfalse (by simp)
    simp [createTransaction, createTransactionUnits, runUnits, hall]
  · simp [createTransactionUnits]

/-- The abort behaviour at a concrete input: the oracle accepting only
account ids present in the (empty) store rejects the single line item, and
the creation leaves the store unchanged. -/
theorem createTx_invalid_item_aborts_witness :
    (∃ it ∈ ((⟨"Rent", 700000000, none, [⟨7, 50, none⟩]⟩ :
          CreateTxInput)).lineItems,
        (fun it : LineItemInput =>
          emptyDB.accounts.any (fun a => a.id == it.accountId)) it = false) ∧
    (createTransaction
        (fun it : LineItemInput =>
          emptyDB.accounts.any (fun a => a.id == it.accountId))
        ⟨"Rent", 700000000, none, [⟨7, 50, none⟩]⟩ emptyDB = emptyDB ∧
      (createTransactionUnits
          (fun it : LineItemInput =>
            emptyDB.accounts.any (fun a => a.id == it.accountId))
          ⟨"Rent", 700000000, none, [⟨7, 50, none⟩]⟩).length =
        (touchedAccounts ⟨"Rent", 700000000, none, [⟨7, 50, none⟩]⟩).length
          + 1) :=
  ⟨⟨⟨7, 50, none⟩, by simp, rfl⟩,
   createTx_invalid_item_aborts _ _ emptyDB ⟨⟨7, 50, none⟩, by simp, rfl⟩⟩

-- ===== C3 =====

/-- C3 counterexample: deleting a transaction id absent from the store
still returns `true` — `TransactionRepository.delete` returns `true`
unconditionally — not the claimed "not found" `false` outcome, although
the store is indeed left unchanged. -/
theorem tx_delete_missing_counterexample :
    (deleteTransaction emptyDB 42).2 = true ∧
    (deleteTransaction emptyDB 42).1 = emptyDB :=
  ⟨rfl, by decide⟩

/-- C3 amended: for a transaction id absent from the store, update returns
`(db, false)` without changing the store, and an update carrying no fields
likewise returns `(db, false)`; delete also leaves the store unchanged but
returns `true`, not `false` — its "not found" outcome is indistinguishable
from success. -/
theorem tx_missing_id_outcomes (db : DB) (id : Nat) (u : TxUpdates)
    (hid : ∀ t ∈ db.transactions, t.id ≠ id)
    (hli : ∀ li ∈ db.lineItems, li.txId ≠ id) :
    updateTransaction db id u = (db, false) ∧
    (∀ u₀ : TxUpdates, u₀.isEmpty = true →
      updateTransaction db id u₀ = (db, false)) ∧
    deleteTransaction db id = (db, true) := by
  have hany : (db.transactions.any (fun t => t.id == id)) = false := by
    cases hA : db.transactions.any (fun t => t.id == id)
    · rfl
    · obtain ⟨t, ht, hpt⟩ := List.any_eq_true.mp hA
      rw [beq_iff_eq] at hpt
      exact absurd hpt (hid t ht)
  have hfm : db.lineItems.filterMap
      (fun li => if li.txId == id then some li.id else none) = [] := by
    rw [List.filterMap_eq_nil_iff]
    intro li hmem
    rw [if_neg (by simp [hli li hmem])]
  have hfm2 : db.lineItems.filterMap
      (fun li => if li.txId == id then some li.accountId else none) = [] := by
    rw [List.filterMap_eq_nil_iff]
    intro li hmem
    rw [if_neg (by simp [hli li hmem])]
  refine ⟨?_, ?_, ?_⟩
  · unfold updateTransaction
    cases hemp : u.isEmpty with
    | false => rw [if_neg (by simp), if_neg (by simp [hany])]
    | true => rfl
  · intro u₀ h₀
    unfold updateTransaction
    rw [if_pos h₀]
  · have haccs : accountIdsForTx db id = [] := by
      unfold accountIdsForTx
      rw [hfm2]
      rfl
    have hrem : txRemoved db id = db := by
      unfold txRemoved
      rw [hfm]
      have h1 : db.tagAssocs.filter
          (fun p => !(([] : List Nat).contains p.1)) = db.tagAssocs :=
        List.filter_eq_self.mpr (fun p _ => by simp)
      have h2 : db.lineItems.filter (fun li => !(li.txId == id)) =
          db.lineItems :=
        List.filter_eq_self.mpr (fun li hmem => by simp [hli li hmem])
      have h3 : db.transactions.filter (fun t => !(t.id == id)) =
          db.transactions :=
        List.filter_eq_self.mpr (fun t ht => by simp [hid t ht])
      rw [h1, h2, h3]
    show ((accountIdsForTx db id).foldl recalculateRunningBalances
      (txRemoved db id), true) = (db, true)
    rw [haccs, hrem]
    rfl

/-- The missing-id outcomes at a concrete input: id 42 on the empty
store. -/
theorem tx_missing_id_outcomes_witness :
    (∀ t ∈ emptyDB.transactions, t.id ≠ 42) ∧
    (∀ li ∈ emptyDB.lineItems, li.txId ≠ 42) ∧
    (updateTransaction emptyDB 42 { title := some "x" } = (emptyDB, false) ∧
      (∀ u₀ : TxUpdates, u₀.isEmpty = true →
        updateTransaction emptyDB 42 u₀ = (emptyDB, false)) ∧
      deleteTransaction emptyDB 42 = (emptyDB, true)) :=
  ⟨fun t ht => absurd ht (List.not_mem_nil t),
   fun li hmem => absurd hmem (List.not_mem_nil li),
   tx_missing_id_outcomes emptyDB 42 { title := some "x" }
     (fun t ht => absurd ht (List.not_mem_nil t))
     (fun li hmem => absurd hmem (List.not_mem_nil li))⟩

-- ===== C4 =====

/-- C4: the two inserts of scheduled-transaction creation are NOT one
atomic unit — the repository runs them back to back with no
`db.transaction(...)` wrapper, so each is its own implicit single-statement
unit (two units in all), and a failure of the second (Selector) insert
leaves the first (RecurringTransaction) row committed with no selector row,
contradicting "if either insert fails, neither row remains".  The happy
path does insert the recurring row (reminder lead time defaulting to 7,
first-unprocessed-event date initialized to the start date) and a selector
row referencing both the template and the new recurring id. -/
theorem scheduled_create_not_atomic :
    (createScheduledTransactionUnits true
        ⟨3, 700000000, none, none, none, none⟩).length = 2 ∧
    (createScheduledTransaction false emptyDB
        ⟨3, 700000000, none, none, none, none⟩).recurrings =
      [⟨1, 7, 700000000⟩] ∧
    (createScheduledTransaction false emptyDB
        ⟨3, 700000000, none, none, none, none⟩).selectors = [] ∧
    (createScheduledTransaction true emptyDB
        ⟨3, 700000000, none, none, none, none⟩).selectors =
      [⟨1, scheduledSelectorEnt, 3, none, none, none, some 1, some 700000000,
        some 700000000, some 1, some 1, some 7⟩] := by
  refine ⟨rfl, ?_, rfl, ?_⟩ <;> decide

-- ===== C5 =====

/-- C5: deleting a transaction template removes every `ZLINEITEMTEMPLATE`
row of the template and every `ZTEMPLATESELECTOR` row referencing it — of
both `Z_ENT` kinds, import rule and scheduled transaction, since the
`DELETE` carries no `Z_ENT` filter — plus the template row itself, so no
row referencing the template remains; the call reports `true`. -/
theorem template_delete_cascades (db : DB) (templateId : Nat) :
    (∀ lt ∈ (deleteTransactionTemplate db templateId).1.lineItemTemplates,
        lt.templateId ≠ templateId) ∧
    (∀ s ∈ (deleteTransactionTemplate db templateId).1.selectors,
        s.templateId ≠ templateId) ∧
    (∀ t ∈ (deleteTransactionTemplate db templateId).1.templates,
        t.id ≠ templateId) ∧
    (deleteTransactionTemplate db templateId).2 = true := by
  refine ⟨?_, ?_, ?_, rfl⟩ <;>
    · intro x hx
      have hq := (List.mem_filter.mp hx).2
      simpa using hq

-- ===== C8 =====

/-- Appending to a list cannot change `find?` when the prefix already
yields no hit. -/
theorem find?_append_none {l₁ l₂ : List α} (p : α → Bool)
    (h : l₁.find? p = none) : (l₁ ++ l₂).find? p = l₂.find? p := by
  induction l₁ with
  | nil => rfl
  | cons x xs ih =>
    have hx : p x = false := by
      cases hp : p x
      · rfl
      · rw [List.find?_cons_of_pos _ hp] at h
        exact absurd h (by simp)
    rw [List.find?_cons_of_neg _ (by simp [hx])] at h
    rw [List.cons_append, List.find?_cons_of_neg _ (by simp [hx])]
    exact ih h

/-- C8: tag creation is idempotent by canonical (upper-cased, trimmed)
name: when no tag with the canonical name exists yet, a second create call
whose name canonicalizes identically returns the id the first call
returned, inserts nothing (the store is unchanged), and exactly one tag
row with that canonical name exists afterward. -/
theorem tag_create_idempotent (db : DB) (n₁ n₂ : String)
    (hc : canonicalTagName n₁ = canonicalTagName n₂)
    (hfresh : ∀ t ∈ db.tags, t.canonicalName ≠ canonicalTagName n₁) :
    (createTag (createTag db n₁).2 n₂).1 = (createTag db n₁).1 ∧
    (createTag (createTag db n₁).2 n₂).2 = (createTag db n₁).2 ∧
    (((createTag (createTag db n₁).2 n₂).2).tags.filter
        (fun t => t.canonicalName == canonicalTagName n₁)).length = 1 := by
  have hfind1 : db.tags.find?
      (fun t => t.canonicalName == canonicalTagName n₁) = none := by
    cases hf : db.tags.find? (fun t => t.canonicalName == canonicalTagName n₁)
    · rfl
    · rename_i t
      have hmem := List.mem_of_find?_eq_some hf
      have hp := List.find?_some hf
      rw [beq_iff_eq] at hp
      exact absurd hp (hfresh t hmem)
  have h1 : createTag db n₁ =
      (db.nextTagId,
       { db with
          tags := db.tags ++ [⟨db.nextTagId, n₁.trim, canonicalTagName n₁⟩],
          nextTagId := db.nextTagId + 1 }) := by
    simp only [createTag, hfind1]
  have hnone₂ : db.tags.find?
      (fun t => t.canonicalName == canonicalTagName n₂) = none := by
    rw [← hc]
    exact hfind1
  have hfind2 :
      (db.tags ++ [(⟨db.nextTagId, n₁.trim, canonicalTagName n₁⟩ :
          TagRow)]).find?
        (fun t => t.canonicalName == canonicalTagName n₂) =
      some (⟨db.nextTagId, n₁.trim, canonicalTagName n₁⟩ : TagRow) := by
    rw [find?_append_none _ hnone₂]
    have hp : ((⟨db.nextTagId, n₁.trim, canonicalTagName n₁⟩ :
        TagRow).canonicalName == canonicalTagName n₂) = true := by
      show (canonicalTagName n₁ == canonicalTagName n₂) = true
      rw [hc]
      exact beq_self_eq_true _
    rw [@List.find?_cons_of_pos TagRow
      (fun t => t.canonicalName == canonicalTagName n₂)
      (⟨db.nextTagId, n₁.trim, canonicalTagName n₁⟩ : TagRow) [] hp]
  have hscrut : ({ db with
      tags := db.tags ++ [⟨db.nextTagId, n₁.trim, canonicalTagName n₁⟩],
      nextTagId := db.nextTagId + 1 } : DB).tags =
      db.tags ++ [⟨db.nextTagId, n₁.trim, canonicalTagName n₁⟩] := rfl
  have h2 : createTag (createTag db n₁).2 n₂ =
      (db.nextTagId, (createTag db n₁).2) := by
    rw [h1]
    simp only [createTag, hscrut, hfind2]
  refine ⟨?_, ?_, ?_⟩
  · rw [h2, h1]
  · rw [h2]
  · rw [h2]
    show (((createTag db n₁).2).tags.filter
      (fun t => t.canonicalName == canonicalTagName n₁)).length = 1
    rw [h1, hscrut, List.filter_append]
    have hnil : db.tags.filter
        (fun t => t.canonicalName == canonicalTagName n₁) = [] := by
      rw [List.filter_eq_nil_iff]
      intro t ht
      simpa using hfresh t ht
    rw [hnil]
    simp

/-- The tag idempotence at a concrete input: creating `"Groceries"` twice
on the empty store. -/
theorem tag_create_idempotent_witness :
    canonicalTagName "Groceries" = canonicalTagName "Groceries" ∧
    (∀ t ∈ emptyDB.tags, t.canonicalName ≠ canonicalTagName "Groceries") ∧
    ((createTag (createTag emptyDB "Groceries").2 "Groceries").1 =
        (createTag emptyDB "Groceries").1 ∧
      (createTag (createTag emptyDB "Groceries").2 "Groceries").2 =
        (createTag emptyDB "Groceries").2 ∧
      (((createTag (createTag emptyDB "Groceries").2 "Groceries").2).tags.filter
          (fun t => t.canonicalName == canonicalTagName "Groceries")).length
        = 1) :=
  ⟨rfl, fun t ht => absurd ht (List.not_mem_nil t),
   tag_create_idempotent emptyDB "Groceries" "Groceries" rfl
     (fun t ht => absurd ht (List.not_mem_nil t))⟩

-- ===== C9 =====

/-- The matching loop is a `filter` by the test outcome: a rule is kept
exactly when its pattern compiles and tests `true`. -/
theorem matchRulesLoop_filter (rt : Option String → String → Option Bool)
    (desc : String) (l : List ImportRule) :
    matchRulesLoop rt desc l =
      l.filter (fun r => (rt r.pattern desc).getD false) := by
  induction l with
  | nil => rfl
  | cons r rs ih =>
    cases h : rt r.pattern desc with
    | none => simp [matchRulesLoop, h, List.filter_cons, ih]
    | some b => cases b <;> simp [matchRulesLoop, h, List.filter_cons, ih]

/-- C9: `match(description)` returns exactly the stored rules whose pattern
compiles and tests `true` against the description — a `filter` over the
full listing, hence no short-circuiting, and a rule whose pattern fails to
compile (oracle outcome `none`) is silently skipped with no exception —
and the listing it filters is ordered by the owning template's title. -/
theorem match_rules_filter_sorted (rt : Option String → String → Option Bool)
    (db : DB) (desc : String) :
    matchImportRules rt db desc =
      (getImportRules db).filter (fun r => (rt r.pattern desc).getD false) ∧
    (getImportRules db).Pairwise
      (fun r₁ r₂ => r₁.templateTitle ≤ r₂.templateTitle) := by
  constructor
  · exact matchRulesLoop_filter rt desc (getImportRules db)
  · have h := sortLe_pairwise
      (fun r₁ r₂ : ImportRule => decide (r₁.templateTitle ≤ r₂.templateTitle))
      (fun a b => by
        rcases le_total a.templateTitle b.templateTitle with hab | hba
        · exact Or.inl (by simpa using hab)
        · exact Or.inr (by simpa using hba))
      (fun a b c hab hbc => by
        simp only [decide_eq_true_eq] at hab hbc ⊢
        exact le_trans hab hbc)
      (db.selectors.filterMap (fun s =>
        if s.ent == importSelectorEnt then
          (db.templates.find? (fun t => t.id == s.templateId)).map
            (fun t => ⟨s.id, s.templateId, t.title, s.pattern, s.accountId,
              s.payee⟩)
        else none))
    exact h.imp (fun hx => by simpa using hx)

end Banktivity
